import Mathlib

/-!
Verification of the payment-allocation and return-settlement ledger of the
Store-Management backend.

The definitions below are a shallow embedding of
`backend/services/payment_service.py` and
`backend/services/invoice_return_service.py` together with the relevant rows of
`backend/database/models.py`.  Money and quantities are modelled as exact
rationals; the float tolerance constant is kept as in the source (0.01).
Database sessions are modelled by an explicit `DB` state; an operation that
raises in Python returns `.error` here, and since every service method commits
only at its very end (an exception leads to the session being closed without a
commit, rolling back all uncommitted flushes), an erroring operation leaves no
trace of its partial writes: this is exactly the `Except` semantics used here.
-/

namespace StoreLedger

/-!
Rational arithmetic: `Rat.add`, `Rat.sub` and `Rat.mul` are `@[irreducible]`
in this toolchain, so the embedding uses the kernel-computable forms below
(each provably equal to the library operation), keeping every definition
evaluable by `decide` on concrete inputs.
-/

/-- Kernel-computable addition on ℚ (provably equal to `a + b`). -/
def qadd (a b : ℚ) : ℚ := mkRat (a.num * b.den + b.num * a.den) (a.den * b.den)

/-- Kernel-computable subtraction on ℚ (provably equal to `a - b`). -/
def qsub (a b : ℚ) : ℚ := mkRat (a.num * b.den - b.num * a.den) (a.den * b.den)

/-- Kernel-computable multiplication on ℚ (provably equal to `a * b`). -/
def qmul (a b : ℚ) : ℚ := mkRat (a.num * b.num) (a.den * b.den)

/-- Kernel-computable list sum on ℚ (provably equal to `List.sum`). -/
def qsum (l : List ℚ) : ℚ := l.foldr qadd 0

/-- Python's min on two rationals (kernel-computable form of `min`). -/
def qmin (a b : ℚ) : ℚ := if a ≤ b then a else b

/-- Python's abs on a rational (kernel-computable form of `abs`). -/
def qabs (a : ℚ) : ℚ := if a < 0 then -a else a

/-- The float tolerance used throughout both services (0.01 currency units). -/
def eps : ℚ := mkRat 1 100

/-- `Invoice.status` values (`models.py`). -/
inductive InvoiceStatus
  | pending
  | paid
  | cancelled
  | processing
deriving DecidableEq

/-- `InvoiceReturn.status` values (`models.py`). -/
inductive ReturnStatus
  | pending_refund
  | refunded
deriving DecidableEq

/-- The financial columns of an `Invoice` row, plus the columns the ledger
    reads (`customer_id`, `created_at`, `exported_at`).  `exported` stands for
    `exported_at IS NOT NULL`; `created_at` is an abstract timestamp. -/
structure Invoice where
  id : Nat
  customer_id : Nat
  total : ℚ
  paid_amount : ℚ
  refunded_amount : ℚ
  remaining_amount : ℚ
  status : InvoiceStatus
  exported : Bool
  created_at : Nat
deriving DecidableEq

/-- An `InvoiceItem` row (the columns the return engine reads). -/
structure InvoiceItem where
  id : Nat
  invoice_id : Nat
  product_id : Option Nat
  product_price : ℚ
  quantity : ℚ
deriving DecidableEq

/-- A `Payment` row.  `reversed` models the presence of the reversal text
    marker in the `notes` column. -/
structure Payment where
  id : Nat
  customer_id : Nat
  amount : ℚ
  reversed : Bool
deriving DecidableEq

/-- A `PaymentAllocation` row. -/
structure PaymentAllocation where
  payment_id : Nat
  invoice_id : Nat
  amount : ℚ
deriving DecidableEq

/-- An `InvoiceReturn` row. -/
structure InvoiceReturn where
  id : Nat
  invoice_id : Nat
  refund_amount : ℚ
  is_full_return : Bool
  status : ReturnStatus
  refund_payment_id : Option Nat
deriving DecidableEq

/-- An `InvoiceReturnItem` row. -/
structure InvoiceReturnItem where
  invoice_return_id : Nat
  invoice_item_id : Nat
  product_id : Option Nat
  quantity_returned : ℚ
  subtotal : ℚ
  restore_inventory : Bool
deriving DecidableEq

/-- A `Product` row (only `stock_quantity` matters to the ledger). -/
structure Product where
  id : Nat
  stock_quantity : ℚ
deriving DecidableEq

/-- The database state seen by the two services.  `customers` is the set of
    existing customer ids; `next_id` models the autoincrement id generator for
    newly inserted `Payment` and `InvoiceReturn` rows. -/
structure DB where
  customers : List Nat
  invoices : List Invoice
  invoice_items : List InvoiceItem
  payments : List Payment
  allocations : List PaymentAllocation
  returns : List InvoiceReturn
  return_items : List InvoiceReturnItem
  products : List Product
  next_id : Nat
deriving DecidableEq

/-- The error taxonomy of the spec.  Both services raise `ValueError` in
    Python; each constructor records which validation fired. -/
inductive LedgerError
  | validation
  | notFound
  | overAllocation
  | illegalState
deriving DecidableEq

/-- Row lookup `SELECT * FROM invoices WHERE id = iid`. -/
def findInvoice (db : DB) (iid : Nat) : Option Invoice :=
  db.invoices.find? (fun i => i.id == iid)

/-- Write back a mutated invoice row (the ORM object flush). -/
def putInvoice (db : DB) (inv : Invoice) : DB :=
  { db with invoices := db.invoices.map (fun i => if i.id == inv.id then inv else i) }

/-- The mutation `_allocate_to_invoice` performs on the invoice row after its
    validation passed: add to `paid_amount`, subtract from `remaining_amount`,
    and if the new remainder is within tolerance mark the invoice `paid` and
    clean the remainder to exactly zero. -/
def fwdStep (a : ℚ) (inv : Invoice) : Invoice :=
  let inv := { inv with
    paid_amount := qadd inv.paid_amount a,
    remaining_amount := qsub inv.remaining_amount a }
  if inv.remaining_amount ≤ eps then
    { inv with status := .paid, remaining_amount := 0 }
  else inv

/-- `PaymentService._allocate_to_invoice`. -/
def allocate_to_invoice (db : DB) (payment_id invoice_id : Nat) (amount : ℚ) :
    Except LedgerError DB :=
  match findInvoice db invoice_id with
  | none => .error .notFound
  | some invoice =>
    if amount > qadd invoice.remaining_amount eps then .error .overAllocation
    else
      let db := { db with
        allocations := db.allocations ++ [⟨payment_id, invoice_id, amount⟩] }
      .ok (putInvoice db (fwdStep amount invoice))

/-- The manual-mode allocation loop of `PaymentService.record_payment`:
    each entry is checked against the running unallocated remainder and then
    applied through `_allocate_to_invoice`. -/
def allocate_manual (db : DB) (pid : Nat) (remaining : ℚ) :
    List (Nat × ℚ) → Except LedgerError DB
  | [] => .ok db
  | (invoice_id, alloc_amount) :: rest =>
    if alloc_amount > remaining then .error .overAllocation
    else
      match allocate_to_invoice db pid invoice_id alloc_amount with
      | .error e => .error e
      | .ok db' => allocate_manual db' pid (qsub remaining alloc_amount) rest

/-- The FIFO allocation loop shared by the semi-auto and auto modes of
    `record_payment`: walk the candidate invoices in order, paying
    `min(remaining, invoice.remaining_amount)` to each, stopping once the
    payment is exhausted. -/
def allocate_fifo (db : DB) (pid : Nat) (remaining : ℚ) :
    List Nat → Except LedgerError DB
  | [] => .ok db
  | invoice_id :: rest =>
    if remaining ≤ 0 then .ok db
    else
      match findInvoice db invoice_id with
      | none => .error .notFound
      | some invoice =>
        let alloc := qmin remaining invoice.remaining_amount
        match allocate_to_invoice db pid invoice_id alloc with
        | .error e => .error e
        | .ok db' => allocate_fifo db' pid (qsub remaining alloc) rest

/-- Stable insertion into a list already sorted by `created_at`. -/
def insertByCreated (x : Invoice) : List Invoice → List Invoice
  | [] => [x]
  | y :: t =>
    if x.created_at ≤ y.created_at then x :: y :: t
    else y :: insertByCreated x t

/-- `ORDER BY created_at ASC` (a stable sort, structurally recursive so that
    concrete states evaluate). -/
def sortByCreated : List Invoice → List Invoice
  | [] => []
  | x :: t => insertByCreated x (sortByCreated t)

/-- The candidate query of the semi-auto (constrained-FIFO) mode: the given
    invoices, restricted to this customer, with a positive remainder. -/
def semiAutoCandidates (db : DB) (customer_id : Nat) (invoice_ids : List Nat) :
    List Invoice :=
  sortByCreated (db.invoices.filter (fun i =>
    invoice_ids.contains i.id && i.customer_id == customer_id &&
      decide (0 < i.remaining_amount)))

/-- The candidate query of the auto-FIFO mode: all of the customer's invoices
    with status pending or paid, positive remainder, and `exported_at` set. -/
def autoCandidates (db : DB) (customer_id : Nat) : List Invoice :=
  sortByCreated (db.invoices.filter (fun i =>
    i.customer_id == customer_id &&
      (i.status == .pending || i.status == .paid) &&
      decide (0 < i.remaining_amount) && i.exported))

/-- `PaymentService.record_payment`.  Python's truthiness tests on the two
    optional arguments are modelled by comparing `getD []` against `[]`; the
    returned `Nat` is the id of the created payment. -/
def record_payment (db : DB) (customer_id : Nat) (amount : ℚ)
    (invoice_ids : Option (List Nat))
    (manual_allocations : Option (List (Nat × ℚ))) :
    Except LedgerError (DB × Nat) :=
  if amount ≤ 0 then .error .validation
  else if ¬ db.customers.contains customer_id then .error .notFound
  else
    let pid := db.next_id
    let db := { db with
      payments := db.payments ++ [⟨pid, customer_id, amount, false⟩],
      next_id := db.next_id + 1 }
    let result :=
      if (manual_allocations.getD []) ≠ [] then
        allocate_manual db pid amount (manual_allocations.getD [])
      else if (invoice_ids.getD []) ≠ [] then
        let invoices := semiAutoCandidates db customer_id (invoice_ids.getD [])
        if invoices.isEmpty then .error .notFound
        else allocate_fifo db pid amount (invoices.map Invoice.id)
      else
        let invoices := autoCandidates db customer_id
        if invoices.isEmpty then .error .notFound
        else
          let total_debt := qsum (invoices.map Invoice.remaining_amount)
          if amount > total_debt then .error .overAllocation
          else allocate_fifo db pid amount (invoices.map Invoice.id)
    match result with
    | .error e => .error e
    | .ok db' => .ok (db', pid)

/-- The per-invoice mutation of `reverse_payment`'s loop body: undo the
    allocation and recompute the status (a fully reversed invoice with zero
    paid amount reverts to pending; a paid invoice whose remainder became
    positive reverts to pending). -/
def bwdStep (a : ℚ) (inv : Invoice) : Invoice :=
  let inv := { inv with
    paid_amount := qsub inv.paid_amount a,
    remaining_amount := qadd inv.remaining_amount a }
  if inv.paid_amount = 0 then { inv with status := .pending }
  else if inv.status = .paid ∧ eps < inv.remaining_amount then
    { inv with status := .pending }
  else inv

/-- One iteration of `reverse_payment`'s loop (skips silently when the invoice
    row is gone, as the `if invoice:` guard does). -/
def reverse_allocation (db : DB) (a : PaymentAllocation) : DB :=
  match findInvoice db a.invoice_id with
  | none => db
  | some invoice => putInvoice db (bwdStep a.amount invoice)

/-- `PaymentService.reverse_payment`. -/
def reverse_payment (db : DB) (payment_id : Nat) : Except LedgerError DB :=
  match db.payments.find? (fun p => p.id == payment_id) with
  | none => .error .notFound
  | some payment =>
    if payment.reversed then .error .illegalState
    else
      let db' := (db.allocations.filter (fun a => a.payment_id == payment_id)).foldl
        reverse_allocation db
      let marked := db'.payments.map
        (fun p => if p.id == payment_id then { p with reversed := true } else p)
      .ok { db' with payments := marked }

/-- One requested line of a return (`InvoiceReturnItemCreate`). -/
structure ReturnItemRequest where
  invoice_item_id : Nat
  quantity_returned : ℚ
  restore_inventory : Bool
deriving DecidableEq

/-- The `invoice.items` relationship. -/
def itemsOfInvoice (db : DB) (invoice_id : Nat) : List InvoiceItem :=
  db.invoice_items.filter (fun it => it.invoice_id == invoice_id)

/-- The `SUM(quantity_returned)` query of `_validate_return_items` and
    `get_available_return_quantities`: all persisted return items for this
    invoice line, joined to returns of this invoice, regardless of return
    status. -/
def already_returned (db : DB) (invoice_id invoice_item_id : Nat) : ℚ :=
  qsum ((db.return_items.filter (fun ri =>
      ri.invoice_item_id == invoice_item_id &&
        db.returns.any (fun r =>
          r.id == ri.invoice_return_id && r.invoice_id == invoice_id))).map
    InvoiceReturnItem.quantity_returned)

/-- One validated line, as built by `_validate_return_items`. -/
structure ValidatedItem where
  invoice_item_id : Nat
  product_id : Option Nat
  product_price : ℚ
  quantity_returned : ℚ
  subtotal : ℚ
  restore_inventory : Bool
deriving DecidableEq

/-- `InvoiceReturnService._validate_return_items`: each requested line must
    belong to the invoice, and its quantity must not exceed
    `original quantity - already returned`. -/
def validate_return_items (db : DB) (invoice : Invoice) :
    List ReturnItemRequest → Except LedgerError (List ValidatedItem)
  | [] => .ok []
  | req :: rest =>
    match (itemsOfInvoice db invoice.id).find?
        (fun it => it.id == req.invoice_item_id) with
    | none => .error .validation
    | some invoice_item =>
      let available :=
        qsub invoice_item.quantity (already_returned db invoice.id req.invoice_item_id)
      if req.quantity_returned > available then .error .validation
      else
        match validate_return_items db invoice rest with
        | .error e => .error e
        | .ok v =>
          .ok (⟨req.invoice_item_id, invoice_item.product_id,
            invoice_item.product_price, req.quantity_returned,
            qmul req.quantity_returned invoice_item.product_price,
            req.restore_inventory⟩ :: v)

/-- `InvoiceReturnService._is_full_return`: true when, for every line of the
    invoice, the prior returns plus the current request reach the original
    quantity. -/
def is_full_return (db : DB) (invoice : Invoice)
    (validated : List ValidatedItem) : Bool :=
  (itemsOfInvoice db invoice.id).all (fun item =>
    let prior := already_returned db invoice.id item.id
    let current := qsum ((validated.filter
      (fun v => v.invoice_item_id == item.id)).map
        ValidatedItem.quantity_returned)
    decide (item.quantity ≤ qadd prior current))

/-- One iteration of `_restore_inventory`: when the line is flagged and its
    product still exists, bump the product's stock by the returned quantity. -/
def restore_inventory_step (db : DB) (v : ValidatedItem) : DB :=
  if v.restore_inventory then
    match v.product_id with
    | none => db
    | some product_id =>
      match db.products.find? (fun p => p.id == product_id) with
      | none => db
      | some _ =>
        let products := db.products.map (fun p =>
          if p.id == product_id then
            { p with stock_quantity := qadd p.stock_quantity v.quantity_returned }
          else p)
        { db with products := products }
  else db

/-- `InvoiceReturnService._restore_inventory`. -/
def restore_inventory (db : DB) (validated : List ValidatedItem) : DB :=
  validated.foldl restore_inventory_step db

/-- `InvoiceReturnService.create_return`.  Returns the id of the new
    `InvoiceReturn`. -/
def create_return (db : DB) (invoice_id : Nat)
    (return_items : List ReturnItemRequest) (refund_amount_override : Option ℚ) :
    Except LedgerError (DB × Nat) :=
  match findInvoice db invoice_id with
  | none => .error .notFound
  | some invoice =>
    if ¬ (invoice.status = .paid ∨ invoice.status = .pending) then
      .error .validation
    else if (itemsOfInvoice db invoice_id).isEmpty then .error .validation
    else
      match validate_return_items db invoice return_items with
      | .error e => .error e
      | .ok validated =>
        let refund_amount :=
          refund_amount_override.getD (qsum (validated.map ValidatedItem.subtotal))
        let full := is_full_return db invoice validated
        let rid := db.next_id
        let new_items := validated.map (fun v =>
          (⟨rid, v.invoice_item_id, v.product_id, v.quantity_returned,
            v.subtotal, v.restore_inventory⟩ : InvoiceReturnItem))
        let db := { db with
          returns := db.returns ++
            [⟨rid, invoice_id, refund_amount, full, .pending_refund, none⟩],
          return_items := db.return_items ++ new_items,
          next_id := db.next_id + 1 }
        .ok (restore_inventory db validated, rid)

/-- `InvoiceReturnService._create_refund_payment`: insert a negative payment
    for the settlement cash together with its negative allocation; returns the
    new payment's id. -/
def create_refund_payment (db : DB) (invoice : Invoice) (refund_amount : ℚ) :
    DB × Nat :=
  let pid := db.next_id
  ({ db with
      payments := db.payments ++ [⟨pid, invoice.customer_id, -refund_amount, false⟩],
      allocations := db.allocations ++ [⟨pid, invoice.id, -refund_amount⟩],
      next_id := db.next_id + 1 },
   pid)

/-- `InvoiceReturnService._allocate_settlement_to_invoice`: track the cash out
    in `refunded_amount`, clear the negative balance, and clean float noise. -/
def allocate_settlement_to_invoice (invoice : Invoice) (settlement_amount : ℚ) :
    Invoice :=
  let invoice := { invoice with
    refunded_amount := qadd invoice.refunded_amount settlement_amount,
    remaining_amount := qadd invoice.remaining_amount settlement_amount }
  if qabs invoice.remaining_amount ≤ eps then { invoice with remaining_amount := 0 }
  else invoice

/-- Step 5 of `update_return_status`: recompute the invoice status from the
    remaining amount. -/
def refund_status_step (invoice : Invoice) : Invoice :=
  if invoice.remaining_amount ≤ eps then
    { invoice with status := .paid, remaining_amount := 0 }
  else if 0 < invoice.remaining_amount then { invoice with status := .pending }
  else invoice

/-- The state transition performed by the `pending_refund -> refunded` branch
    of `update_return_status` (its steps 1-6). -/
def refund_transition (db : DB) (return_id : Nat) (ret : InvoiceReturn)
    (invoice : Invoice) : DB :=
  -- Step 1: apply the credit for the returned goods.
  let invoice := { invoice with
    remaining_amount := qsub invoice.remaining_amount ret.refund_amount }
  -- Step 2: the net settlement amount (actual cash to pay out).
  let settlement_amount := qabs (qmin 0 invoice.remaining_amount)
  -- Steps 3-4: create the settlement payment if none is linked yet, then
  -- allocate it.
  let step34 : DB × InvoiceReturn × Invoice :=
    if 0 < settlement_amount then
      let created :=
        if ret.refund_payment_id = none then
          let cr := create_refund_payment db invoice settlement_amount
          (cr.1, { ret with refund_payment_id := some cr.2 })
        else (db, ret)
      (created.1, created.2,
        allocate_settlement_to_invoice invoice settlement_amount)
    else (db, ret, invoice)
  -- Step 5: recompute the invoice status.
  let invoice2 := refund_status_step step34.2.2
  -- Step 6: mark the return refunded.
  let ret2 := { step34.2.1 with status := ReturnStatus.refunded }
  let db2 := putInvoice step34.1 invoice2
  let returns2 := db2.returns.map
    (fun r => if r.id == return_id then ret2 else r)
  { db2 with returns := returns2 }

/-- `InvoiceReturnService.update_return_status`.  `payment_method_given`
    models whether the optional `payment_method` argument was provided. -/
def update_return_status (db : DB) (return_id : Nat) (new_status : ReturnStatus)
    (payment_method_given : Bool) : Except LedgerError DB :=
  match db.returns.find? (fun r => r.id == return_id) with
  | none => .error .notFound
  | some ret =>
    if ret.status = new_status then .ok db
    else
      match ret.status, new_status with
      | .pending_refund, .refunded =>
        if ¬ payment_method_given then .error .validation
        else
          match findInvoice db ret.invoice_id with
          | none => .error .notFound
          | some invoice => .ok (refund_transition db return_id ret invoice)
      | .refunded, .pending_refund => .error .illegalState
      | _, _ => .ok db

/-! ### Derived definitions used by the statements and proofs -/

/-- Apply an id-keyed update to an invoice table. -/
def updById (k : Nat) (f : Invoice → Invoice) (l : List Invoice) : List Invoice :=
  l.map (fun i => if i.id == k then f i else i)

/-- The allocation plan the FIFO loop realises, computed from the pre-loop
    state: the amounts `min(remaining cash, invoice remainder)` paid to each
    candidate in turn while cash is left. -/
def fifoPlan (db : DB) (cash : ℚ) : List Nat → List (Nat × ℚ)
  | [] => []
  | iid :: rest =>
    if cash ≤ 0 then []
    else
      match findInvoice db iid with
      | none => []
      | some invoice =>
        let alloc := qmin cash invoice.remaining_amount
        (iid, alloc) :: fifoPlan db (qsub cash alloc) rest

/-- Total `refund_amount` of the refunded returns of one invoice
    (the `total_returned_amount` property of `models.py`, restricted to the
    returns table given). -/
def refundedSumR (R : List InvoiceReturn) (j : Nat) : ℚ :=
  qsum ((R.filter (fun r =>
    r.invoice_id == j && r.status == ReturnStatus.refunded)).map
    InvoiceReturn.refund_amount)

/-- The balance equation the code actually maintains, exactly:
    remaining = total - paid + refunded - (refunded returns of the invoice).
    Stated with the kernel-computable operations; `exactEqR_iff` restates it
    with the library operations. -/
def exactEqR (R : List InvoiceReturn) (inv : Invoice) : Prop :=
  inv.remaining_amount =
    qsub (qadd (qsub inv.total inv.paid_amount) inv.refunded_amount)
      (refundedSumR R inv.id)

/-- The same equation up to the float tolerance (see `approxEqR_iff`). -/
def approxEqR (R : List InvoiceReturn) (inv : Invoice) : Prop :=
  qabs (qsub inv.remaining_amount
    (qsub (qadd (qsub inv.total inv.paid_amount) inv.refunded_amount)
      (refundedSumR R inv.id))) ≤ eps

/-- Every invoice satisfies the code's balance equation exactly. -/
def ExactInv (db : DB) : Prop := ∀ inv ∈ db.invoices, exactEqR db.returns inv

/-- Every invoice satisfies the code's balance equation within tolerance. -/
def ApproxInv (db : DB) : Prop := ∀ inv ∈ db.invoices, approxEqR db.returns inv

/-- The balance equation exactly as the spec states it:
    remaining = total - paid + refunded, within tolerance
    (see `specLedgerEq_iff`). -/
def specLedgerEq (inv : Invoice) : Prop :=
  qabs (qsub inv.remaining_amount
    (qadd (qsub inv.total inv.paid_amount) inv.refunded_amount)) ≤ eps

/-- Run a sequence of `update_return_status` calls; a call that raises rolls
    back, leaving the state unchanged. -/
def run_status_updates (db : DB) : List (Nat × ReturnStatus × Bool) → DB
  | [] => db
  | c :: rest =>
    match update_return_status db c.1 c.2.1 c.2.2 with
    | .error _ => run_status_updates db rest
    | .ok db' => run_status_updates db' rest

/-- The quantity a `create_return` request asks to put back in stock for one
    product: the requested quantities of the flagged lines whose invoice item
    carries that product. -/
def requested_restock (db : DB) (invoice_id : Nat) (reqs : List ReturnItemRequest)
    (prod : Nat) : ℚ :=
  ((reqs.filter (fun q => q.restore_inventory &&
      match (itemsOfInvoice db invoice_id).find? (fun it => it.id == q.invoice_item_id) with
      | some it => it.product_id == some prod
      | none => false)).map ReturnItemRequest.quantity_returned) |> qsum

/-- The stock a validated item list puts back for one product. -/
def restockOf (v : List ValidatedItem) (prod : Nat) : ℚ :=
  qsum ((v.filter (fun x => x.restore_inventory && x.product_id == some prod)).map
    ValidatedItem.quantity_returned)

/-- The empty database (used only as a default for `Option.getD`). -/
def DB0 : DB := ⟨[], [], [], [], [], [], [], [], 0⟩

/-! ### Concrete states used by counterexamples and witnesses -/

/-- Scenario 4 of the spec: a fully paid invoice of 20000 with a full return
    of 20000 pending refund. -/
def CEdb : DB :=
  { customers := [1],
    invoices := [⟨1, 1, 20000, 20000, 0, 0, .paid, true, 0⟩],
    invoice_items := [⟨10, 1, some 7, 2000, 10⟩],
    payments := [⟨5, 1, 20000, false⟩],
    allocations := [⟨5, 1, 20000⟩],
    returns := [⟨2, 1, 20000, true, .pending_refund, none⟩],
    return_items := [⟨2, 10, some 7, 10, 20000, false⟩],
    products := [⟨7, 0⟩],
    next_id := 100 }

/-- A pending invoice of 100 with one line of 10 units at price 5. -/
def C7db : DB :=
  { customers := [1],
    invoices := [⟨1, 1, 50, 0, 0, 50, .pending, true, 0⟩],
    invoice_items := [⟨10, 1, some 7, 5, 10⟩],
    payments := [], allocations := [], returns := [], return_items := [],
    products := [⟨7, 0⟩],
    next_id := 100 }

/-- A request that names the same invoice line twice. -/
def C7reqs : List ReturnItemRequest := [⟨10, 10, false⟩, ⟨10, 10, false⟩]

/-- Customer 1 pays, but the manual map names customer 2's cancelled and
    never-exported invoice. -/
def C10db : DB :=
  { customers := [1, 2],
    invoices := [⟨5, 2, 50, 0, 0, 50, .cancelled, false, 0⟩],
    invoice_items := [], payments := [], allocations := [], returns := [],
    return_items := [], products := [], next_id := 100 }

/-- A single pending invoice of 100, fully unpaid. -/
def C3db : DB :=
  { customers := [1],
    invoices := [⟨1, 1, 100, 0, 0, 100, .pending, true, 0⟩],
    invoice_items := [], payments := [], allocations := [], returns := [],
    return_items := [], products := [], next_id := 100 }

/-- The state after a manual payment of 40 on `C3db`. -/
def C3Wdb1 : DB :=
  ((record_payment C3db 1 40 none (some [(1, 40)])).toOption.getD (DB0, 0)).1

/-- The state after reversing that payment. -/
def C3Wdb2 : DB :=
  (reverse_payment C3Wdb1 100).toOption.getD DB0

/-- Scenario 2 of the spec: two exported pending invoices of 50000 and 70000.
-/
def S2db : DB :=
  { customers := [1],
    invoices := [⟨1, 1, 50000, 0, 0, 50000, .pending, true, 0⟩,
                 ⟨2, 1, 70000, 0, 0, 70000, .pending, true, 1⟩],
    invoice_items := [], payments := [], allocations := [], returns := [],
    return_items := [], products := [], next_id := 100 }

/-- The state after an auto-FIFO payment of 90000 on `S2db`. -/
def S2db' : DB :=
  ((record_payment S2db 1 90000 none none).toOption.getD (DB0, 0)).1

/-- The state after settling the return of `CEdb`. -/
def CEdb' : DB :=
  (update_return_status CEdb 2 .refunded true).toOption.getD DB0

/-- A paid invoice with a return, used to exercise `create_return`. -/
def C9db : DB :=
  { customers := [1],
    invoices := [⟨1, 1, 50, 30, 0, 20, .pending, true, 0⟩],
    invoice_items := [⟨10, 1, some 7, 5, 10⟩, ⟨11, 1, none, 2, 4⟩],
    payments := [⟨5, 1, 30, false⟩],
    allocations := [⟨5, 1, 30⟩],
    returns := [], return_items := [],
    products := [⟨7, 3⟩, ⟨8, 1⟩],
    next_id := 100 }

/-- One flagged and one unflagged line returned from `C9db`'s invoice. -/
def C9reqs : List ReturnItemRequest := [⟨10, 4, true⟩, ⟨11, 1, false⟩]

/-- The state after `create_return` on `C9db`. -/
def C9db' : DB :=
  ((create_return C9db 1 C9reqs none).toOption.getD (DB0, 0)).1

/-! ### Decidability instances -/

instance {ε α : Type} [DecidableEq ε] [DecidableEq α] : DecidableEq (Except ε α) :=
  fun a b =>
    match a, b with
    | .error e1, .error e2 =>
      if h : e1 = e2 then isTrue (by rw [h])
      else isFalse (by intro hc; cases hc; exact h rfl)
    | .ok x, .ok y =>
      if h : x = y then isTrue (by rw [h])
      else isFalse (by intro hc; cases hc; exact h rfl)
    | .error _, .ok _ => isFalse (by intro hc; cases hc)
    | .ok _, .error _ => isFalse (by intro hc; cases hc)

instance (i : Invoice) : Decidable (specLedgerEq i) := by
  unfold specLedgerEq; infer_instance

instance (R : List InvoiceReturn) (i : Invoice) : Decidable (exactEqR R i) := by
  unfold exactEqR; infer_instance

instance (R : List InvoiceReturn) (i : Invoice) : Decidable (approxEqR R i) := by
  unfold approxEqR; infer_instance

instance (db : DB) : Decidable (ExactInv db) := by
  unfold ExactInv; infer_instance

instance (db : DB) : Decidable (ApproxInv db) := by
  unfold ApproxInv; infer_instance

/-! ### Bridges between the kernel-computable rational operations and the
library operations, used to move between evaluable and algebraic forms. -/

theorem qadd_eq (a b : ℚ) : qadd a b = a + b := (Rat.add_def' a b).symm

theorem qsub_eq (a b : ℚ) : qsub a b = a - b := (Rat.sub_def' a b).symm

theorem qmul_eq (a b : ℚ) : qmul a b = a * b := by
  unfold qmul
  rw [Rat.mul_def, Rat.normalize_eq_mkRat]

theorem qsum_cons (a : ℚ) (l : List ℚ) : qsum (a :: l) = a + qsum l := by
  unfold qsum
  rw [List.foldr_cons, qadd_eq]

theorem qsum_eq (l : List ℚ) : qsum l = l.sum := by
  induction l with
  | nil => rfl
  | cons a t ih => rw [qsum_cons, ih, List.sum_cons]

theorem qmin_eq (a b : ℚ) : qmin a b = min a b := by
  unfold qmin
  rw [min_def]

theorem qabs_eq (a : ℚ) : qabs a = |a| := by
  unfold qabs
  rcases lt_or_le a 0 with h | h
  · rw [if_pos h, abs_of_neg h]
  · rw [if_neg (not_lt.mpr h), abs_of_nonneg h]

theorem eps_nonneg : (0 : ℚ) ≤ eps := by decide

theorem eps_pos : (0 : ℚ) < eps := by decide

theorem exactEqR_iff (R : List InvoiceReturn) (i : Invoice) :
    exactEqR R i ↔ i.remaining_amount =
      i.total - i.paid_amount + i.refunded_amount - refundedSumR R i.id := by
  unfold exactEqR
  rw [qsub_eq, qadd_eq, qsub_eq]

theorem approxEqR_iff (R : List InvoiceReturn) (i : Invoice) :
    approxEqR R i ↔ |i.remaining_amount -
      (i.total - i.paid_amount + i.refunded_amount - refundedSumR R i.id)| ≤ eps := by
  unfold approxEqR
  rw [qabs_eq, qsub_eq, qsub_eq, qadd_eq, qsub_eq]

theorem specLedgerEq_iff (i : Invoice) :
    specLedgerEq i ↔ |i.remaining_amount -
      (i.total - i.paid_amount + i.refunded_amount)| ≤ eps := by
  unfold specLedgerEq
  rw [qabs_eq, qsub_eq, qadd_eq, qsub_eq]

/-! ### Generic lookup lemmas -/

/-- In a table whose keys are unique, looking up a member's key finds exactly
    that member. -/
theorem find?_key_eq_some {α : Type} {key : α → Nat} {l : List α} {a : α}
    (hnd : (l.map key).Nodup) (hm : a ∈ l) :
    l.find? (fun x => key x == key a) = some a := by
  induction l with
  | nil => cases hm
  | cons b t ih =>
    simp only [List.map_cons, List.nodup_cons] at hnd
    rcases List.mem_cons.mp hm with rfl | hmt
    · simp [List.find?_cons]
    · rw [List.find?_cons]
      have hne : (key b == key a) = false := by
        simp only [beq_eq_false_iff_ne, ne_eq]
        intro h
        exact hnd.1 (h ▸ List.mem_map_of_mem key hmt)
      rw [hne]
      exact ih hnd.2 hmt

/-- Two members of a unique-key table with the same key are equal. -/
theorem eq_of_mem_of_nodup_key {α : Type} {key : α → Nat} {l : List α}
    (hnd : (l.map key).Nodup) {a b : α} (ha : a ∈ l) (hb : b ∈ l)
    (h : key a = key b) : a = b := by
  have h1 := find?_key_eq_some hnd ha
  have h2 := find?_key_eq_some hnd hb
  rw [h] at h1
  rw [h1] at h2
  exact Option.some.inj h2

/-- Key-based lookup commutes with a key-preserving map. -/
theorem find?_key_map {α : Type} (key : α → Nat) {g : α → α}
    (hg : ∀ x, key (g x) = key x) (l : List α) (j : Nat) :
    (l.map g).find? (fun x => key x == j) = (l.find? (fun x => key x == j)).map g := by
  induction l with
  | nil => rfl
  | cons b t ih =>
    rw [List.map_cons, List.find?_cons, List.find?_cons]
    by_cases h : key b = j
    · have : (key (g b) == j) = true := by simp [hg, h]
      rw [this]
      have : (key b == j) = true := by simp [h]
      rw [this]
      rfl
    · have : (key (g b) == j) = false := by simp [hg, h]
      rw [this]
      have : (key b == j) = false := by simp [h]
      rw [this]
      exact ih

/-! ### Step and table-update lemmas -/

@[simp]
theorem fwdStep_id (a : ℚ) (i : Invoice) : (fwdStep a i).id = i.id := by
  unfold fwdStep
  dsimp only
  split <;> rfl

@[simp]
theorem bwdStep_id (a : ℚ) (i : Invoice) : (bwdStep a i).id = i.id := by
  unfold bwdStep
  dsimp only
  split
  · rfl
  · split <;> rfl

theorem updById_map_key {k : Nat} {f : Invoice → Invoice}
    (hf : ∀ i, (f i).id = i.id) (l : List Invoice) :
    (updById k f l).map Invoice.id = l.map Invoice.id := by
  unfold updById
  rw [List.map_map]
  apply List.map_congr_left
  intro a _
  by_cases h : a.id = k <;> simp [h, hf]

theorem updById_find?_ne {k j : Nat} {f : Invoice → Invoice}
    (hf : ∀ i, (f i).id = i.id) (l : List Invoice) (hjk : j ≠ k) :
    (updById k f l).find? (fun i => i.id == j) = l.find? (fun i => i.id == j) := by
  unfold updById
  rw [find?_key_map Invoice.id (fun x => by by_cases h : x.id = k <;> simp [h, hf])]
  cases hfind : l.find? (fun i => i.id == j) with
  | none => rfl
  | some inv =>
    have hid : inv.id = j := by simpa using List.find?_some hfind
    have hk : ¬ (inv.id = k) := by rw [hid]; exact hjk
    simp [hk]

theorem updById_find?_eq {k : Nat} {f : Invoice → Invoice}
    (hf : ∀ i, (f i).id = i.id) (l : List Invoice) :
    (updById k f l).find? (fun i => i.id == k) =
      (l.find? (fun i => i.id == k)).map f := by
  unfold updById
  rw [find?_key_map Invoice.id (fun x => by by_cases h : x.id = k <;> simp [h, hf])]
  cases hfind : l.find? (fun i => i.id == k) with
  | none => rfl
  | some inv =>
    have hid : inv.id = k := by simpa using List.find?_some hfind
    simp [hid]

/-- A successful `_allocate_to_invoice` call appends one allocation row and
    rewrites the invoice row through `fwdStep`. -/
theorem allocate_to_invoice_ok {db db' : DB} {pid iid : Nat} {a : ℚ}
    (hnd : (db.invoices.map Invoice.id).Nodup)
    (h : allocate_to_invoice db pid iid a = .ok db') :
    ∃ inv, findInvoice db iid = some inv ∧ a ≤ inv.remaining_amount + eps ∧
      db' = { db with
        allocations := db.allocations ++ [⟨pid, iid, a⟩],
        invoices := updById iid (fwdStep a) db.invoices } := by
  unfold allocate_to_invoice at h
  cases hfind : findInvoice db iid with
  | none => rw [hfind] at h; cases h
  | some inv =>
    rw [hfind] at h
    dsimp only at h
    split at h
    · cases h
    next hb =>
      refine ⟨inv, rfl, by rw [← qadd_eq]; exact not_lt.mp hb, ?_⟩
      have hdb := Except.ok.inj h
      rw [← hdb]
      have hid : inv.id = iid := by
        have h2 := List.find?_some
          (show db.invoices.find? (fun i => i.id == iid) = some inv from hfind)
        simpa using h2
      unfold putInvoice updById
      congr 1
      apply List.map_congr_left
      intro i hi
      by_cases hik : i.id = iid
      · have hii : i = inv :=
          eq_of_mem_of_nodup_key hnd hi (List.mem_of_find?_eq_some hfind)
            (by rw [hik, hid])
        rw [if_pos (by simp [fwdStep_id, hid, hik]),
          if_pos (by simp [hik]), hii]
      · rw [if_neg (by simp [fwdStep_id, hid, hik]),
          if_neg (by simp [hik])]

/-- What a successful manual-mode allocation loop did to the database:
    it appended one allocation row per entry and rewrote each named invoice
    once through `fwdStep`, after checking the per-invoice bound. -/
theorem allocate_manual_ok {pid : Nat} (mas : List (Nat × ℚ)) :
    ∀ (db : DB) (rem : ℚ) (db' : DB),
      (db.invoices.map Invoice.id).Nodup →
      (mas.map Prod.fst).Nodup →
      allocate_manual db pid rem mas = .ok db' →
      db'.customers = db.customers ∧
      db'.invoice_items = db.invoice_items ∧
      db'.payments = db.payments ∧
      db'.returns = db.returns ∧
      db'.return_items = db.return_items ∧
      db'.products = db.products ∧
      db'.next_id = db.next_id ∧
      db'.allocations = db.allocations ++
        mas.map (fun m => (⟨pid, m.1, m.2⟩ : PaymentAllocation)) ∧
      db'.invoices.map Invoice.id = db.invoices.map Invoice.id ∧
      (∀ j, j ∉ mas.map Prod.fst → findInvoice db' j = findInvoice db j) ∧
      (∀ j b, (j, b) ∈ mas → ∃ inv, findInvoice db j = some inv ∧
        b ≤ inv.remaining_amount + eps ∧
        findInvoice db' j = some (fwdStep b inv)) := by
  induction mas with
  | nil =>
    intro db rem db' hndI hndm h
    have hdb : db = db' := Except.ok.inj h
    subst hdb
    simp
  | cons m t ih =>
    intro db rem db' hndI hndm h
    obtain ⟨k, a⟩ := m
    simp only [allocate_manual] at h
    split at h
    · cases h
    cases halloc : allocate_to_invoice db pid k a with
    | error e => rw [halloc] at h; cases h
    | ok db₁ =>
      rw [halloc] at h
      obtain ⟨inv, hfind, hval, hdb₁⟩ := allocate_to_invoice_ok hndI halloc
      have hinv₁ : db₁.invoices = updById k (fwdStep a) db.invoices := by
        rw [hdb₁]
      have hidmap₁ : db₁.invoices.map Invoice.id = db.invoices.map Invoice.id := by
        rw [hinv₁, updById_map_key (fun i => fwdStep_id a i)]
      have hndI₁ : (db₁.invoices.map Invoice.id).Nodup := by
        rw [hidmap₁]; exact hndI
      have hndm' : k ∉ t.map Prod.fst ∧ (t.map Prod.fst).Nodup := by
        simpa using hndm
      obtain ⟨hc, hii, hp, hr, hri, hpr, hn, hal, hidmap, hmiss, hhit⟩ :=
        ih db₁ (qsub rem a) db' hndI₁ hndm'.2 h
      have hfind₁ne : ∀ j, j ≠ k → findInvoice db₁ j = findInvoice db j := by
        intro j hj
        show db₁.invoices.find? _ = db.invoices.find? _
        rw [hinv₁]
        exact updById_find?_ne (fun i => fwdStep_id a i) db.invoices hj
      refine ⟨?_, ?_, ?_, ?_, ?_, ?_, ?_, ?_, ?_, ?_, ?_⟩
      · rw [hc, hdb₁]
      · rw [hii, hdb₁]
      · rw [hp, hdb₁]
      · rw [hr, hdb₁]
      · rw [hri, hdb₁]
      · rw [hpr, hdb₁]
      · rw [hn, hdb₁]
      · rw [hal, hdb₁]
        simp [List.append_assoc]
      · rw [hidmap, hidmap₁]
      · intro j hj
        have hj' : j ≠ k ∧ j ∉ t.map Prod.fst := by simpa using hj
        rw [hmiss j hj'.2, hfind₁ne j hj'.1]
      · intro j b hjb
        rcases List.mem_cons.mp hjb with heq | hmem
        · rw [(Prod.mk.inj heq).1, (Prod.mk.inj heq).2]
          refine ⟨inv, hfind, hval, ?_⟩
          rw [hmiss k hndm'.1]
          show db₁.invoices.find? _ = _
          rw [hinv₁, updById_find?_eq (fun i => fwdStep_id a i) db.invoices]
          show (findInvoice db k).map _ = _
          rw [hfind]
          rfl
        · obtain ⟨inv₁, hf₁, hv₁, hf'⟩ := hhit j b hmem
          have hjk : j ≠ k := by
            intro hjk
            exact hndm'.1 (hjk ▸ List.mem_map_of_mem Prod.fst hmem)
          rw [hfind₁ne j hjk] at hf₁
          exact ⟨inv₁, hf₁, hv₁, hf'⟩

/-- The FIFO plan only depends on the rows of the invoices it names. -/
theorem fifoPlan_congr {db₁ db : DB} :
    ∀ (ids : List Nat) (cash : ℚ),
      (∀ j ∈ ids, findInvoice db₁ j = findInvoice db j) →
      fifoPlan db₁ cash ids = fifoPlan db cash ids := by
  intro ids
  induction ids with
  | nil => intro cash _; rfl
  | cons iid rest ih =>
    intro cash hsame
    simp only [fifoPlan]
    rw [hsame iid (List.mem_cons_self _ _)]
    by_cases hc : cash ≤ 0
    · simp [hc]
    · rw [if_neg hc, if_neg hc]
      cases findInvoice db iid with
      | none => rfl
      | some inv =>
        dsimp only
        rw [ih _ (fun j hj => hsame j (List.mem_cons_of_mem _ hj))]

/-- The invoices named by a FIFO plan are a prefix of the candidate list. -/
theorem fifoPlan_keys_sublist (db : DB) :
    ∀ (ids : List Nat) (cash : ℚ),
      ((fifoPlan db cash ids).map Prod.fst).Sublist ids := by
  intro ids
  induction ids with
  | nil => intro cash; simp [fifoPlan]
  | cons iid rest ih =>
    intro cash
    simp only [fifoPlan]
    by_cases hc : cash ≤ 0
    · simp [hc]
    · rw [if_neg hc]
      cases findInvoice db iid with
      | none => simp
      | some inv =>
        dsimp only
        rw [List.map_cons]
        exact (ih (qsub cash (qmin cash inv.remaining_amount))).cons₂ iid

/-- The FIFO loop is the manual loop run on the FIFO plan. -/
theorem allocate_fifo_eq_manual {pid : Nat} :
    ∀ (ids : List Nat) (db : DB) (cash : ℚ),
      (db.invoices.map Invoice.id).Nodup → ids.Nodup →
      (∀ j ∈ ids, (findInvoice db j).isSome) →
      allocate_fifo db pid cash ids =
        allocate_manual db pid cash (fifoPlan db cash ids) := by
  intro ids
  induction ids with
  | nil => intro db cash _ _ _; rfl
  | cons iid rest ih =>
    intro db cash hndI hnd hsome
    simp only [fifoPlan, allocate_fifo]
    by_cases hc : cash ≤ 0
    · simp [hc, allocate_manual]
    rw [if_neg hc, if_neg hc]
    cases hfind : findInvoice db iid with
    | none =>
      exact absurd (hsome iid (List.mem_cons_self _ _)) (by simp [hfind])
    | some inv =>
      dsimp only
      set m := qmin cash inv.remaining_amount with hm
      have hmc : ¬ (m > cash) := by
        rw [hm, qmin_eq]
        simp [min_le_left]
      simp only [allocate_manual, if_neg hmc]
      cases halloc : allocate_to_invoice db pid iid m with
      | error e => rfl
      | ok db₁ =>
        obtain ⟨inv', hfind', hval, hdb₁⟩ := allocate_to_invoice_ok hndI halloc
        have hinv₁ : db₁.invoices = updById iid (fwdStep m) db.invoices := by
          rw [hdb₁]
        have hndI₁ : (db₁.invoices.map Invoice.id).Nodup := by
          rw [hinv₁, updById_map_key (fun i => fwdStep_id m i)]; exact hndI
        have hnd' : iid ∉ rest ∧ rest.Nodup := by simpa using hnd
        have hstable : ∀ j ∈ rest, findInvoice db₁ j = findInvoice db j := by
          intro j hj
          have hjk : j ≠ iid := fun hji => hnd'.1 (hji ▸ hj)
          show db₁.invoices.find? _ = db.invoices.find? _
          rw [hinv₁]
          exact updById_find?_ne (fun i => fwdStep_id m i) db.invoices hjk
        have hsome' : ∀ j ∈ rest, (findInvoice db₁ j).isSome := by
          intro j hj
          rw [hstable j hj]
          exact hsome j (List.mem_cons_of_mem _ hj)
        dsimp only
        rw [ih db₁ (qsub cash m) hndI₁ hnd'.2 hsome',
          fifoPlan_congr rest (qsub cash m) hstable]

/-! ### Candidate-query lemmas -/

theorem insertByCreated_perm (x : Invoice) (l : List Invoice) :
    List.Perm (insertByCreated x l) (x :: l) := by
  induction l with
  | nil => exact List.Perm.refl _
  | cons y t ih =>
    unfold insertByCreated
    split
    · exact List.Perm.refl _
    · exact (ih.cons y).trans (List.Perm.swap x y t)

theorem sortByCreated_perm (l : List Invoice) :
    List.Perm (sortByCreated l) l := by
  induction l with
  | nil => exact List.Perm.refl _
  | cons x t ih =>
    unfold sortByCreated
    exact (insertByCreated_perm x (sortByCreated t)).trans (ih.cons x)

theorem sorted_filter_mem {l : List Invoice} {p : Invoice → Bool} {c : Invoice}
    (h : c ∈ sortByCreated (l.filter p)) : c ∈ l ∧ p c = true := by
  have hm : c ∈ l.filter p := ((sortByCreated_perm (l.filter p)).mem_iff).mp h
  exact ⟨List.mem_of_mem_filter hm, List.of_mem_filter hm⟩

theorem sorted_filter_nodup {l : List Invoice} {p : Invoice → Bool}
    (hnd : (l.map Invoice.id).Nodup) :
    ((sortByCreated (l.filter p)).map Invoice.id).Nodup := by
  have hperm := (sortByCreated_perm (l.filter p)).map Invoice.id
  refine hperm.symm.nodup ?_
  exact ((List.filter_sublist l).map Invoice.id).nodup hnd

/-- What a successful `record_payment` did: it inserted one payment row with a
    fresh id and applied a list of allocation entries, touching each named
    invoice exactly once through `fwdStep` after checking its bound. -/
theorem record_payment_ok {db db' : DB} {cid pid : Nat} {amt : ℚ}
    {iids : Option (List Nat)} {mas : Option (List (Nat × ℚ))}
    (hndI : (db.invoices.map Invoice.id).Nodup)
    (hmas : ((mas.getD []).map Prod.fst).Nodup)
    (h : record_payment db cid amt iids mas = .ok (db', pid)) :
    pid = db.next_id ∧
    ∃ entries : List (Nat × ℚ),
      (entries.map Prod.fst).Nodup ∧
      db'.customers = db.customers ∧
      db'.invoice_items = db.invoice_items ∧
      db'.payments = db.payments ++ [⟨pid, cid, amt, false⟩] ∧
      db'.returns = db.returns ∧
      db'.return_items = db.return_items ∧
      db'.products = db.products ∧
      db'.next_id = db.next_id + 1 ∧
      db'.allocations = db.allocations ++
        entries.map (fun m => (⟨pid, m.1, m.2⟩ : PaymentAllocation)) ∧
      db'.invoices.map Invoice.id = db.invoices.map Invoice.id ∧
      (∀ j, j ∉ entries.map Prod.fst → findInvoice db' j = findInvoice db j) ∧
      (∀ j b, (j, b) ∈ entries → ∃ inv, findInvoice db j = some inv ∧
        b ≤ inv.remaining_amount + eps ∧
        findInvoice db' j = some (fwdStep b inv)) := by
  unfold record_payment at h
  split at h
  · cases h
  split at h
  · cases h
  dsimp only at h
  set db₀ : DB := { db with
    payments := db.payments ++ [⟨db.next_id, cid, amt, false⟩],
    next_id := db.next_id + 1 } with hdb₀
  have hndI₀ : (db₀.invoices.map Invoice.id).Nodup := hndI
  have hlift : ∀ {entries : List (Nat × ℚ)},
      (entries.map Prod.fst).Nodup →
      allocate_manual db₀ db.next_id amt entries = .ok db' →
      pid = db.next_id →
      (entries.map Prod.fst).Nodup ∧
      db'.customers = db.customers ∧
      db'.invoice_items = db.invoice_items ∧
      db'.payments = db.payments ++ [⟨pid, cid, amt, false⟩] ∧
      db'.returns = db.returns ∧
      db'.return_items = db.return_items ∧
      db'.products = db.products ∧
      db'.next_id = db.next_id + 1 ∧
      db'.allocations = db.allocations ++
        entries.map (fun m => (⟨pid, m.1, m.2⟩ : PaymentAllocation)) ∧
      db'.invoices.map Invoice.id = db.invoices.map Invoice.id ∧
      (∀ j, j ∉ entries.map Prod.fst → findInvoice db' j = findInvoice db j) ∧
      (∀ j b, (j, b) ∈ entries → ∃ inv, findInvoice db j = some inv ∧
        b ≤ inv.remaining_amount + eps ∧
        findInvoice db' j = some (fwdStep b inv)) := by
    intro entries hndk hok hpid
    obtain ⟨hc, hii, hp, hr, hri, hpr, hn, hal, hidmap, hmiss, hhit⟩ :=
      allocate_manual_ok entries db₀ amt db' hndI₀ hndk hok
    subst hpid
    exact ⟨hndk, hc, hii, hp, hr, hri, hpr, hn, hal, hidmap, hmiss, hhit⟩
  split at h
  · cases h
  next db₁ heq =>
    obtain ⟨hdb', hpid⟩ := Prod.mk.inj (Except.ok.inj h)
    subst hdb'
    split at heq
    · -- manual mode
      exact ⟨hpid.symm, mas.getD [], hlift hmas heq hpid.symm⟩
    split at heq
    · -- semi-auto mode
      split at heq
      · cases heq
      · have hcnd : ((semiAutoCandidates db₀ cid (iids.getD [])).map Invoice.id).Nodup :=
          sorted_filter_nodup hndI₀
        have hsome : ∀ j ∈ (semiAutoCandidates db₀ cid (iids.getD [])).map Invoice.id,
            (findInvoice db₀ j).isSome := by
          intro j hj
          obtain ⟨c, hcmem, hcid⟩ := List.mem_map.mp hj
          have hcinv : c ∈ db₀.invoices := (sorted_filter_mem hcmem).1
          rw [← hcid, show findInvoice db₀ c.id = db₀.invoices.find? (fun i => i.id == c.id) from rfl,
            find?_key_eq_some hndI₀ hcinv]
          rfl
        rw [allocate_fifo_eq_manual _ db₀ amt hndI₀ hcnd hsome] at heq
        have hplannd : ((fifoPlan db₀ amt
            ((semiAutoCandidates db₀ cid (iids.getD [])).map Invoice.id)).map Prod.fst).Nodup :=
          (fifoPlan_keys_sublist db₀
            ((semiAutoCandidates db₀ cid (iids.getD [])).map Invoice.id) amt).nodup hcnd
        exact ⟨hpid.symm, _, hlift hplannd heq hpid.symm⟩
    · -- auto mode
      split at heq
      · cases heq
      split at heq
      · cases heq
      · have hcnd : ((autoCandidates db₀ cid).map Invoice.id).Nodup :=
          sorted_filter_nodup hndI₀
        have hsome : ∀ j ∈ (autoCandidates db₀ cid).map Invoice.id,
            (findInvoice db₀ j).isSome := by
          intro j hj
          obtain ⟨c, hcmem, hcid⟩ := List.mem_map.mp hj
          have hcinv : c ∈ db₀.invoices := (sorted_filter_mem hcmem).1
          rw [← hcid, show findInvoice db₀ c.id = db₀.invoices.find? (fun i => i.id == c.id) from rfl,
            find?_key_eq_some hndI₀ hcinv]
          rfl
        rw [allocate_fifo_eq_manual _ db₀ amt hndI₀ hcnd hsome] at heq
        have hplannd : ((fifoPlan db₀ amt
            ((autoCandidates db₀ cid).map Invoice.id)).map Prod.fst).Nodup :=
          (fifoPlan_keys_sublist db₀
            ((autoCandidates db₀ cid).map Invoice.id) amt).nodup hcnd
        exact ⟨hpid.symm, _, hlift hplannd heq hpid.symm⟩

/-! ### Reversal lemmas -/

theorem updById_of_absent {k : Nat} {f : Invoice → Invoice} {l : List Invoice}
    (h : l.find? (fun i => i.id == k) = none) : updById k f l = l := by
  have hall := List.find?_eq_none.mp h
  unfold updById
  have : ∀ i ∈ l, (if i.id == k then f i else i) = i := by
    intro i hi
    rw [if_neg (by simpa using hall i hi)]
  rw [List.map_congr_left this]
  simp

theorem reverse_allocation_eq {db : DB} {a : PaymentAllocation}
    (hnd : (db.invoices.map Invoice.id).Nodup) :
    reverse_allocation db a =
      { db with invoices := updById a.invoice_id (bwdStep a.amount) db.invoices } := by
  unfold reverse_allocation
  cases hfind : findInvoice db a.invoice_id with
  | none =>
    dsimp only
    rw [updById_of_absent hfind]
  | some inv =>
    dsimp only
    have hid : inv.id = a.invoice_id := by
      have h2 := List.find?_some
        (show db.invoices.find? (fun i => i.id == a.invoice_id) = some inv from hfind)
      simpa using h2
    unfold putInvoice updById
    congr 1
    apply List.map_congr_left
    intro i hi
    by_cases hik : i.id = a.invoice_id
    · have hii : i = inv :=
        eq_of_mem_of_nodup_key hnd hi (List.mem_of_find?_eq_some hfind)
          (by rw [hik, hid])
      rw [if_pos (by simp [bwdStep_id, hid, hik]), if_pos (by simp [hik]), hii]
    · rw [if_neg (by simp [bwdStep_id, hid, hik]), if_neg (by simp [hik])]

/-- What the reversal loop did to the invoice table. -/
theorem reverse_fold_ok (as : List PaymentAllocation) :
    ∀ db : DB,
      (db.invoices.map Invoice.id).Nodup →
      (as.map PaymentAllocation.invoice_id).Nodup →
      (as.foldl reverse_allocation db).customers = db.customers ∧
      (as.foldl reverse_allocation db).invoice_items = db.invoice_items ∧
      (as.foldl reverse_allocation db).payments = db.payments ∧
      (as.foldl reverse_allocation db).allocations = db.allocations ∧
      (as.foldl reverse_allocation db).returns = db.returns ∧
      (as.foldl reverse_allocation db).return_items = db.return_items ∧
      (as.foldl reverse_allocation db).products = db.products ∧
      (as.foldl reverse_allocation db).next_id = db.next_id ∧
      (as.foldl reverse_allocation db).invoices.map Invoice.id =
        db.invoices.map Invoice.id ∧
      (∀ j, j ∉ as.map PaymentAllocation.invoice_id →
        findInvoice (as.foldl reverse_allocation db) j = findInvoice db j) ∧
      (∀ al ∈ as, findInvoice (as.foldl reverse_allocation db) al.invoice_id =
        (findInvoice db al.invoice_id).map (bwdStep al.amount)) := by
  induction as with
  | nil =>
    intro db hndI hndk
    simp
  | cons a t ih =>
    intro db hndI hndk
    have hstep := reverse_allocation_eq (a := a) hndI
    have hdb₁inv : (reverse_allocation db a).invoices =
        updById a.invoice_id (bwdStep a.amount) db.invoices := by rw [hstep]
    have hidmap₁ : (reverse_allocation db a).invoices.map Invoice.id =
        db.invoices.map Invoice.id := by
      rw [hdb₁inv, updById_map_key (fun i => bwdStep_id a.amount i)]
    have hndI₁ : ((reverse_allocation db a).invoices.map Invoice.id).Nodup := by
      rw [hidmap₁]; exact hndI
    have hndk' : a.invoice_id ∉ t.map PaymentAllocation.invoice_id ∧
        (t.map PaymentAllocation.invoice_id).Nodup := by simpa using hndk
    obtain ⟨hc, hii, hp, hal, hr, hri, hpr, hn, hidmap, hmiss, hhit⟩ :=
      ih (reverse_allocation db a) hndI₁ hndk'.2
    have hne₁ : ∀ j, j ≠ a.invoice_id →
        findInvoice (reverse_allocation db a) j = findInvoice db j := by
      intro j hj
      show (reverse_allocation db a).invoices.find? _ = db.invoices.find? _
      rw [hdb₁inv]
      exact updById_find?_ne (fun i => bwdStep_id a.amount i) db.invoices hj
    rw [List.foldl_cons]
    refine ⟨by rw [hc, hstep], by rw [hii, hstep], by rw [hp, hstep],
      by rw [hal, hstep], by rw [hr, hstep], by rw [hri, hstep],
      by rw [hpr, hstep], by rw [hn, hstep], by rw [hidmap, hidmap₁],
      ?_, ?_⟩
    · intro j hj
      have hj' : j ≠ a.invoice_id ∧ j ∉ t.map PaymentAllocation.invoice_id := by
        simpa using hj
      rw [hmiss j hj'.2, hne₁ j hj'.1]
    · intro al hal2
      rcases List.mem_cons.mp hal2 with rfl | hmem
      · rw [hmiss al.invoice_id hndk'.1]
        show (reverse_allocation db al).invoices.find? _ = _
        rw [hdb₁inv, updById_find?_eq (fun i => bwdStep_id al.amount i) db.invoices]
        rfl
      · rw [hhit al hmem, hne₁ al.invoice_id]
        intro heq
        exact hndk'.1 (heq ▸ List.mem_map_of_mem PaymentAllocation.invoice_id hmem)

/-- What a successful `reverse_payment` did: found the payment unreversed,
    undid its allocations, and marked it reversed. -/
theorem reverse_payment_ok {db db' : DB} {pid : Nat}
    (h : reverse_payment db pid = .ok db') :
    ∃ p, db.payments.find? (fun q => q.id == pid) = some p ∧ p.reversed = false ∧
      db' = { (db.allocations.filter (fun a => a.payment_id == pid)).foldl
          reverse_allocation db with
        payments := ((db.allocations.filter (fun a => a.payment_id == pid)).foldl
          reverse_allocation db).payments.map
            (fun p => if p.id == pid then { p with reversed := true } else p) } := by
  unfold reverse_payment at h
  cases hfind : db.payments.find? (fun p => p.id == pid) with
  | none => rw [hfind] at h; cases h
  | some p =>
    rw [hfind] at h
    dsimp only at h
    split at h
    · cases h
    next hrev =>
      refine ⟨p, rfl, by simpa using hrev, ?_⟩
      exact (Except.ok.inj h).symm

/-! ### Field projections of the invoice steps -/

@[simp]
theorem fwdStep_total (a : ℚ) (i : Invoice) : (fwdStep a i).total = i.total := by
  unfold fwdStep; dsimp only; split <;> rfl

@[simp]
theorem fwdStep_refunded (a : ℚ) (i : Invoice) :
    (fwdStep a i).refunded_amount = i.refunded_amount := by
  unfold fwdStep; dsimp only; split <;> rfl

@[simp]
theorem fwdStep_paid (a : ℚ) (i : Invoice) :
    (fwdStep a i).paid_amount = i.paid_amount + a := by
  unfold fwdStep; dsimp only; split <;> exact qadd_eq _ _

@[simp]
theorem bwdStep_total (a : ℚ) (i : Invoice) : (bwdStep a i).total = i.total := by
  unfold bwdStep; dsimp only; split
  · rfl
  · split <;> rfl

@[simp]
theorem bwdStep_refunded (a : ℚ) (i : Invoice) :
    (bwdStep a i).refunded_amount = i.refunded_amount := by
  unfold bwdStep; dsimp only; split
  · rfl
  · split <;> rfl

@[simp]
theorem bwdStep_paid (a : ℚ) (i : Invoice) :
    (bwdStep a i).paid_amount = i.paid_amount - a := by
  unfold bwdStep; dsimp only; split
  · exact qsub_eq _ _
  · split <;> exact qsub_eq _ _

@[simp]
theorem bwdStep_remaining (a : ℚ) (i : Invoice) :
    (bwdStep a i).remaining_amount = i.remaining_amount + a := by
  unfold bwdStep; dsimp only; split
  · exact qadd_eq _ _
  · split <;> exact qadd_eq _ _

/-! ### Balance-equation step lemmas -/

theorem exact_imp_approx {R : List InvoiceReturn} {inv : Invoice}
    (h : exactEqR R inv) : approxEqR R inv := by
  rw [exactEqR_iff] at h
  rw [approxEqR_iff, h, sub_self, abs_zero]
  exact eps_nonneg

theorem fwdStep_approx {R : List InvoiceReturn} {inv : Invoice} {a : ℚ}
    (hex : exactEqR R inv) (hval : a ≤ inv.remaining_amount + eps) :
    approxEqR R (fwdStep a inv) := by
  rw [exactEqR_iff] at hex
  rw [approxEqR_iff]
  by_cases hcl : qsub inv.remaining_amount a ≤ eps
  · have hstep : fwdStep a inv = { inv with
        paid_amount := qadd inv.paid_amount a,
        remaining_amount := 0,
        status := .paid } := by
      unfold fwdStep
      dsimp only
      rw [if_pos hcl]
    rw [qsub_eq] at hcl
    rw [hstep]
    dsimp only
    rw [qadd_eq, abs_le]
    constructor <;> linarith
  · have hstep : fwdStep a inv = { inv with
        paid_amount := qadd inv.paid_amount a,
        remaining_amount := qsub inv.remaining_amount a } := by
      unfold fwdStep
      dsimp only
      rw [if_neg hcl]
    rw [qsub_eq] at hcl
    rw [hstep]
    dsimp only
    rw [qadd_eq, qsub_eq, abs_le]
    constructor <;> linarith [eps_nonneg]

theorem bwdStep_approx {R : List InvoiceReturn} {inv : Invoice} {a : ℚ}
    (hap : approxEqR R inv) : approxEqR R (bwdStep a inv) := by
  rw [approxEqR_iff] at hap ⊢
  rw [bwdStep_remaining, bwdStep_total, bwdStep_paid, bwdStep_refunded, bwdStep_id]
  have : inv.remaining_amount + a -
      (inv.total - (inv.paid_amount - a) + inv.refunded_amount -
        refundedSumR R inv.id) =
      inv.remaining_amount -
      (inv.total - inv.paid_amount + inv.refunded_amount -
        refundedSumR R inv.id) := by ring
  rw [this]
  exact hap

/-! ### Reversal preserves the balance equation -/

theorem reverse_allocation_returns (db : DB) (a : PaymentAllocation) :
    (reverse_allocation db a).returns = db.returns := by
  unfold reverse_allocation
  cases findInvoice db a.invoice_id <;> rfl

theorem reverse_allocation_mem {db : DB} {a : PaymentAllocation} {inv' : Invoice}
    (h : inv' ∈ (reverse_allocation db a).invoices) :
    inv' ∈ db.invoices ∨ ∃ inv ∈ db.invoices, inv' = bwdStep a.amount inv := by
  unfold reverse_allocation at h
  cases hfind : findInvoice db a.invoice_id with
  | none => rw [hfind] at h; exact Or.inl h
  | some inv =>
    rw [hfind] at h
    unfold putInvoice at h
    dsimp only at h
    obtain ⟨i, hi, heq⟩ := List.mem_map.mp h
    by_cases hik : i.id = inv.id
    · rw [if_pos (by simp [bwdStep_id, hik])] at heq
      exact Or.inr ⟨inv, List.mem_of_find?_eq_some hfind, heq.symm⟩
    · rw [if_neg (by simp [bwdStep_id, hik])] at heq
      exact Or.inl (heq ▸ hi)

theorem reverse_fold_returns (as : List PaymentAllocation) :
    ∀ db : DB, (as.foldl reverse_allocation db).returns = db.returns := by
  induction as with
  | nil => intro db; rfl
  | cons a t ih =>
    intro db
    rw [List.foldl_cons, ih, reverse_allocation_returns]

theorem reverse_fold_approx {R : List InvoiceReturn} (as : List PaymentAllocation) :
    ∀ db : DB, (∀ inv ∈ db.invoices, approxEqR R inv) →
      ∀ inv' ∈ (as.foldl reverse_allocation db).invoices, approxEqR R inv' := by
  induction as with
  | nil => intro db hap; exact hap
  | cons a t ih =>
    intro db hap
    rw [List.foldl_cons]
    refine ih (reverse_allocation db a) ?_
    intro inv' hmem
    rcases reverse_allocation_mem hmem with hold | ⟨inv, hinv, rfl⟩
    · exact hap inv' hold
    · exact bwdStep_approx (hap inv hinv)

/-! ### Settlement-step projections -/

@[simp]
theorem settle_id (i : Invoice) (s : ℚ) :
    (allocate_settlement_to_invoice i s).id = i.id := by
  unfold allocate_settlement_to_invoice; dsimp only; split <;> rfl

@[simp]
theorem settle_total (i : Invoice) (s : ℚ) :
    (allocate_settlement_to_invoice i s).total = i.total := by
  unfold allocate_settlement_to_invoice; dsimp only; split <;> rfl

@[simp]
theorem settle_paid (i : Invoice) (s : ℚ) :
    (allocate_settlement_to_invoice i s).paid_amount = i.paid_amount := by
  unfold allocate_settlement_to_invoice; dsimp only; split <;> rfl

@[simp]
theorem settle_refunded (i : Invoice) (s : ℚ) :
    (allocate_settlement_to_invoice i s).refunded_amount =
      i.refunded_amount + s := by
  unfold allocate_settlement_to_invoice; dsimp only; split <;> exact qadd_eq _ _

@[simp]
theorem settle_status (i : Invoice) (s : ℚ) :
    (allocate_settlement_to_invoice i s).status = i.status := by
  unfold allocate_settlement_to_invoice; dsimp only; split <;> rfl

theorem settle_remaining (i : Invoice) (s : ℚ) :
    (allocate_settlement_to_invoice i s).remaining_amount =
      if qabs (i.remaining_amount + s) ≤ eps then 0
      else i.remaining_amount + s := by
  unfold allocate_settlement_to_invoice
  dsimp only
  rw [qadd_eq]
  split
  · rfl
  · rfl

@[simp]
theorem statusStep_id (i : Invoice) : (refund_status_step i).id = i.id := by
  unfold refund_status_step; split
  · rfl
  · split <;> rfl

@[simp]
theorem statusStep_total (i : Invoice) :
    (refund_status_step i).total = i.total := by
  unfold refund_status_step; split
  · rfl
  · split <;> rfl

@[simp]
theorem statusStep_paid (i : Invoice) :
    (refund_status_step i).paid_amount = i.paid_amount := by
  unfold refund_status_step; split
  · rfl
  · split <;> rfl

@[simp]
theorem statusStep_refunded (i : Invoice) :
    (refund_status_step i).refunded_amount = i.refunded_amount := by
  unfold refund_status_step; split
  · rfl
  · split <;> rfl

theorem statusStep_remaining (i : Invoice) :
    (refund_status_step i).remaining_amount =
      if i.remaining_amount ≤ eps then 0 else i.remaining_amount := by
  unfold refund_status_step; split
  · rfl
  · split <;> rfl

/-! ### Refunded-returns sum lemmas -/

theorem refundedSumR_cons (r : InvoiceReturn) (t : List InvoiceReturn) (j : Nat) :
    refundedSumR (r :: t) j =
      (if r.invoice_id = j ∧ r.status = ReturnStatus.refunded
        then r.refund_amount else 0) + refundedSumR t j := by
  unfold refundedSumR
  rw [List.filter_cons]
  by_cases h1 : r.invoice_id = j
  · by_cases h2 : r.status = ReturnStatus.refunded
    · rw [if_pos (by simp [h1, h2]), if_pos ⟨h1, h2⟩, List.map_cons, qsum_cons]
    · rw [if_neg (by simp [h1, h2]), if_neg (by tauto), zero_add]
  · rw [if_neg (by simp [h1]), if_neg (by tauto), zero_add]

theorem map_set_id_of_absent {rid : Nat} {ret2 : InvoiceReturn}
    {t : List InvoiceReturn} (h : ∀ x ∈ t, x.id ≠ rid) :
    t.map (fun x => if x.id == rid then ret2 else x) = t := by
  have hpt : ∀ x ∈ t, (if x.id == rid then ret2 else x) = x := by
    intro x hx
    rw [if_neg (by simp [h x hx])]
  rw [List.map_congr_left hpt]
  simp

/-- Flipping one pending return to refunded adds its `refund_amount` to the
    refunded-returns sum of its invoice and leaves other invoices' sums
    untouched. -/
theorem refundedSumR_map_set {rid : Nat} {ret ret2 : InvoiceReturn}
    (hid : ret.id = rid) (hold : ret.status = .pending_refund)
    (hinv2 : ret2.invoice_id = ret.invoice_id)
    (hamt2 : ret2.refund_amount = ret.refund_amount)
    (hst2 : ret2.status = .refunded) (j : Nat) :
    ∀ R : List InvoiceReturn, (R.map InvoiceReturn.id).Nodup → ret ∈ R →
      refundedSumR (R.map (fun r => if r.id == rid then ret2 else r)) j =
        refundedSumR R j +
          (if ret.invoice_id = j then ret.refund_amount else 0) := by
  intro R
  induction R with
  | nil => intro _ hmem; cases hmem
  | cons r t ih =>
    intro hnd hmem
    simp only [List.map_cons, List.nodup_cons] at hnd
    rw [List.map_cons]
    rcases List.mem_cons.mp hmem with rfl | hmemt
    · have htail : t.map (fun x => if x.id == rid then ret2 else x) = t := by
        refine map_set_id_of_absent ?_
        intro x hx hxe
        exact hnd.1 ((hxe.trans hid.symm) ▸ List.mem_map_of_mem InvoiceReturn.id hx)
      rw [if_pos (by simp [hid]), htail, refundedSumR_cons, refundedSumR_cons]
      have hretif : (if ret.invoice_id = j ∧ ret.status = ReturnStatus.refunded
          then ret.refund_amount else 0) = 0 := by
        rw [if_neg]
        rintro ⟨_, hc⟩
        rw [hold] at hc
        cases hc
      rw [hretif, zero_add]
      by_cases hj : ret.invoice_id = j
      · rw [if_pos ⟨by rw [hinv2]; exact hj, hst2⟩, if_pos hj, hamt2]
        exact add_comm _ _
      · rw [if_neg (by rintro ⟨hc, _⟩; rw [hinv2] at hc; exact hj hc),
          if_neg hj, zero_add, add_zero]
    · have hrid : ¬ (r.id = rid) := by
        intro hr
        exact hnd.1 ((hr.trans hid.symm) ▸ List.mem_map_of_mem InvoiceReturn.id hmemt)
      rw [if_neg (by simp [hrid]), refundedSumR_cons, refundedSumR_cons,
        ih hnd.2 hmemt, add_assoc]

/-! ### The refunded transition -/

/-- The success cases of `update_return_status`: either nothing changed, or
    the `pending_refund -> refunded` transition ran. -/
theorem update_return_status_ok_cases {db db' : DB} {rid : Nat}
    {ns : ReturnStatus} {pm : Bool}
    (h : update_return_status db rid ns pm = .ok db') :
    db' = db ∨
    ∃ ret invoice, db.returns.find? (fun r => r.id == rid) = some ret ∧
      ret.status = .pending_refund ∧ ns = .refunded ∧ pm = true ∧
      findInvoice db ret.invoice_id = some invoice ∧
      db' = refund_transition db rid ret invoice := by
  unfold update_return_status at h
  cases hret : db.returns.find? (fun r => r.id == rid) with
  | none => rw [hret] at h; cases h
  | some ret =>
    rw [hret] at h
    dsimp only at h
    split at h
    · exact Or.inl (Except.ok.inj h).symm
    next hne =>
      cases hst : ret.status with
      | refunded =>
        rw [hst] at h
        cases ns with
        | pending_refund => dsimp only at h; cases h
        | refunded => dsimp only at h; exact Or.inl (Except.ok.inj h).symm
      | pending_refund =>
        rw [hst] at h
        cases ns with
        | pending_refund => dsimp only at h; exact Or.inl (Except.ok.inj h).symm
        | refunded =>
          dsimp only at h
          split at h
          · cases h
          next hpm =>
            cases hinv : findInvoice db ret.invoice_id with
            | none => rw [hinv] at h; cases h
            | some invoice =>
              rw [hinv] at h
              exact Or.inr ⟨ret, invoice, rfl, hst, rfl, by simpa using hpm,
                hinv, (Except.ok.inj h).symm⟩

/-- Core argument: once the settlement algebra for the touched invoice is
    settled (hkey), the whole post-transition state satisfies the balance
    equation within tolerance. -/
theorem refund_core_approx {db : DB} {rid : Nat} {ret ret2 : InvoiceReturn}
    {inv2 : Invoice} {db' : DB}
    (hndR : (db.returns.map InvoiceReturn.id).Nodup)
    (hex : ExactInv db)
    (hret : db.returns.find? (fun r => r.id == rid) = some ret)
    (hold : ret.status = .pending_refund)
    (hinvs : db'.invoices =
      db.invoices.map (fun i => if i.id == inv2.id then inv2 else i))
    (hrets : db'.returns = db.returns.map
      (fun r => if r.id == rid then ret2 else r))
    (hid2 : inv2.id = ret.invoice_id)
    (hXinv : ret2.invoice_id = ret.invoice_id)
    (hXamt : ret2.refund_amount = ret.refund_amount)
    (hXst : ret2.status = ReturnStatus.refunded)
    (hkey : |inv2.remaining_amount -
      (inv2.total - inv2.paid_amount + inv2.refunded_amount -
        (refundedSumR db.returns ret.invoice_id + ret.refund_amount))| ≤ eps) :
    ApproxInv db' := by
  have hretid : ret.id = rid := by
    simpa using List.find?_some hret
  have hretmem : ret ∈ db.returns := List.mem_of_find?_eq_some hret
  have hsum : ∀ j, refundedSumR db'.returns j =
      refundedSumR db.returns j +
        (if ret.invoice_id = j then ret.refund_amount else 0) := by
    intro j
    rw [hrets]
    exact @refundedSumR_map_set rid ret ret2
      hretid hold hXinv hXamt hXst j db.returns hndR hretmem
  intro inv' hmem
  rw [approxEqR_iff, hsum inv'.id]
  rw [hinvs] at hmem
  obtain ⟨i, hi, heq⟩ := List.mem_map.mp hmem
  by_cases hik : i.id = inv2.id
  · rw [if_pos (by simp [hik])] at heq
    subst heq
    rw [hid2, if_pos rfl]
    exact hkey
  · rw [if_neg (by simp [hik])] at heq
    subst heq
    rw [if_neg (by rw [← hid2]; exact fun hc => hik hc.symm)]
    have hx := hex i hi
    rw [exactEqR_iff] at hx
    rw [hx, add_zero, sub_self, abs_zero]
    exact eps_nonneg

set_option maxHeartbeats 1000000 in
/-- The refunded transition keeps every invoice within tolerance of the
    code's balance equation, given it held exactly before. -/
theorem refund_transition_approx {db : DB} {rid : Nat} {ret : InvoiceReturn}
    {invoice : Invoice}
    (hndI : (db.invoices.map Invoice.id).Nodup)
    (hndR : (db.returns.map InvoiceReturn.id).Nodup)
    (hex : ExactInv db)
    (hret : db.returns.find? (fun r => r.id == rid) = some ret)
    (hold : ret.status = .pending_refund)
    (hinv : findInvoice db ret.invoice_id = some invoice) :
    ApproxInv (refund_transition db rid ret invoice) := by
  have hinvid : invoice.id = ret.invoice_id := by
    have h2 := List.find?_some
      (show db.invoices.find? (fun i => i.id == ret.invoice_id) = some invoice
        from hinv)
    simpa using h2
  have hinvmem : invoice ∈ db.invoices := List.mem_of_find?_eq_some hinv
  have hexi := hex invoice hinvmem
  rw [exactEqR_iff] at hexi
  rw [hinvid] at hexi
  unfold refund_transition
  dsimp only
  split
  next hs =>
    rw [qabs_eq, qmin_eq, qsub_eq] at hs
    have hneg : invoice.remaining_amount - ret.refund_amount < 0 := by
      by_contra hge
      push_neg at hge
      rw [min_eq_left hge] at hs
      simp at hs
    have hsval : qabs (qmin 0 (qsub invoice.remaining_amount ret.refund_amount)) =
        -(invoice.remaining_amount - ret.refund_amount) := by
      rw [qabs_eq, qmin_eq, qsub_eq, min_eq_right (le_of_lt hneg),
        abs_of_neg hneg]
    have hkey : ∀ s : ℚ, s = -(invoice.remaining_amount - ret.refund_amount) →
        |(refund_status_step (allocate_settlement_to_invoice
            { invoice with remaining_amount :=
              (qsub invoice.remaining_amount ret.refund_amount) } s)).remaining_amount -
          ((refund_status_step (allocate_settlement_to_invoice
            { invoice with remaining_amount :=
              (qsub invoice.remaining_amount ret.refund_amount) } s)).total -
           (refund_status_step (allocate_settlement_to_invoice
            { invoice with remaining_amount :=
              (qsub invoice.remaining_amount ret.refund_amount) } s)).paid_amount +
           (refund_status_step (allocate_settlement_to_invoice
            { invoice with remaining_amount :=
              (qsub invoice.remaining_amount ret.refund_amount) } s)).refunded_amount -
            (refundedSumR db.returns ret.invoice_id + ret.refund_amount))| ≤
          eps := by
      intro s hsv
      rw [statusStep_remaining, statusStep_total, statusStep_paid,
        statusStep_refunded, settle_remaining, settle_total, settle_paid,
        settle_refunded]
      dsimp only
      rw [qsub_eq]
      have hz : invoice.remaining_amount - ret.refund_amount + s = 0 := by
        rw [hsv]; ring
      rw [hz, qabs_eq, abs_zero, if_pos eps_nonneg, if_pos eps_nonneg]
      rw [abs_le]
      constructor <;> linarith [eps_nonneg]
    split
    next hrp =>
      dsimp only
      exact refund_core_approx hndR hex hret hold rfl rfl
        (by rw [statusStep_id, settle_id]; exact hinvid) rfl rfl rfl
        (hkey _ hsval)
    next hrp =>
      dsimp only
      exact refund_core_approx hndR hex hret hold rfl rfl
        (by rw [statusStep_id, settle_id]; exact hinvid) rfl rfl rfl
        (hkey _ hsval)
  next hs =>
    dsimp only
    rw [qabs_eq, qmin_eq, qsub_eq] at hs
    have hge : 0 ≤ invoice.remaining_amount - ret.refund_amount := by
      by_contra hlt
      push_neg at hlt
      rw [min_eq_right (le_of_lt hlt), abs_of_neg hlt] at hs
      push_neg at hs
      linarith
    refine refund_core_approx hndR hex hret hold rfl rfl
      (by rw [statusStep_id]; exact hinvid) rfl rfl rfl ?_
    rw [statusStep_remaining, statusStep_total, statusStep_paid,
      statusStep_refunded]
    dsimp only
    rw [qsub_eq]
    by_cases hle : invoice.remaining_amount - ret.refund_amount ≤ eps
    · rw [if_pos hle]
      rw [abs_le]
      constructor <;> linarith [eps_nonneg]
    · rw [if_neg hle]
      rw [abs_le]
      constructor <;> linarith [eps_nonneg]

/-! ### Per-operation preservation of the balance equation -/

theorem record_payment_approx {db db' : DB} {cid pid : Nat} {amt : ℚ}
    {iids : Option (List Nat)} {mas : Option (List (Nat × ℚ))}
    (hndI : (db.invoices.map Invoice.id).Nodup)
    (hmas : ((mas.getD []).map Prod.fst).Nodup)
    (hex : ExactInv db)
    (h : record_payment db cid amt iids mas = .ok (db', pid)) :
    ApproxInv db' := by
  obtain ⟨hpid, entries, hk, hc, hii, hp, hr, hri, hpr, hn, hal, hidmap, hmiss, hhit⟩ :=
    record_payment_ok hndI hmas h
  intro inv' hmem
  have hgoal : approxEqR db.returns inv' → approxEqR db'.returns inv' := by
    rw [hr]; exact id
  refine hgoal ?_
  have hndI' : (db'.invoices.map Invoice.id).Nodup := by
    rw [hidmap]; exact hndI
  have hfind' : db'.invoices.find? (fun x => x.id == inv'.id) = some inv' :=
    find?_key_eq_some hndI' hmem
  by_cases hkey : inv'.id ∈ entries.map Prod.fst
  · obtain ⟨m, hm, hmfst⟩ := List.mem_map.mp hkey
    obtain ⟨inv, hfind, hval, hfin⟩ := hhit m.1 m.2 hm
    rw [hmfst] at hfin
    rw [show findInvoice db' inv'.id = db'.invoices.find? (fun x => x.id == inv'.id)
      from rfl, hfind'] at hfin
    have heq : inv' = fwdStep m.2 inv := Option.some.inj hfin
    rw [heq]
    exact fwdStep_approx (hex inv (List.mem_of_find?_eq_some hfind)) hval
  · have hsame := hmiss inv'.id hkey
    rw [show findInvoice db' inv'.id = db'.invoices.find? (fun x => x.id == inv'.id)
      from rfl, hfind'] at hsame
    exact exact_imp_approx (hex inv' (List.mem_of_find?_eq_some hsame.symm))

theorem reverse_payment_approx {db db' : DB} {pid : Nat}
    (hex : ExactInv db)
    (h : reverse_payment db pid = .ok db') : ApproxInv db' := by
  obtain ⟨p, hfind, hprev, hdb'⟩ := reverse_payment_ok h
  intro inv' hmem
  have hinv' : db'.invoices = ((db.allocations.filter
      (fun a => a.payment_id == pid)).foldl reverse_allocation db).invoices := by
    rw [hdb']
  have hret' : db'.returns = db.returns := by
    rw [hdb']
    exact reverse_fold_returns _ db
  rw [hret']
  rw [hinv'] at hmem
  refine reverse_fold_approx _ db ?_ inv' hmem
  intro inv hm
  exact exact_imp_approx (hex inv hm)

theorem update_return_status_approx {db db' : DB} {rid : Nat}
    {ns : ReturnStatus} {pm : Bool}
    (hndI : (db.invoices.map Invoice.id).Nodup)
    (hndR : (db.returns.map InvoiceReturn.id).Nodup)
    (hex : ExactInv db)
    (h : update_return_status db rid ns pm = .ok db') : ApproxInv db' := by
  rcases update_return_status_ok_cases h with rfl | ⟨ret, invoice, hret, hold, _, _, hinv, rfl⟩
  · intro inv hm
    exact exact_imp_approx (hex inv hm)
  · exact refund_transition_approx hndI hndR hex hret hold hinv

/-! ### Settlement helper lemmas -/

theorem qabs_nonneg (a : ℚ) : 0 ≤ qabs a := by
  rw [qabs_eq]; exact abs_nonneg a

theorem qsub_self (a : ℚ) : qsub a a = 0 := by
  rw [qsub_eq, sub_self]

/-- The code's `abs(min(0, x))` is the spec's `max(0, -x)`. -/
theorem qabs_qmin_zero (x : ℚ) : qabs (qmin 0 x) = max 0 (-x) := by
  rw [qabs_eq, qmin_eq]
  rcases le_or_lt 0 x with h | h
  · rw [min_eq_left h, abs_zero, max_eq_left (neg_nonpos.mpr h)]
  · rw [min_eq_right h.le, abs_of_neg h, max_eq_right (neg_nonneg.mpr h.le)]

/-- Step 5 of `update_return_status` always leaves the remainder above -ε. -/
theorem statusStep_remaining_ge (i : Invoice) :
    -eps ≤ (refund_status_step i).remaining_amount := by
  rw [statusStep_remaining]
  split
  · linarith [eps_nonneg]
  next hgt => linarith [eps_nonneg, not_le.mp hgt]

/-- Paying an invoice exactly its remainder zeroes the remainder (the ≤ ε
    branch of `_allocate_to_invoice` fires and cleans it to 0). -/
theorem fwdStep_exhaust (inv : Invoice) :
    (fwdStep inv.remaining_amount inv).remaining_amount = 0 := by
  unfold fwdStep
  dsimp only
  rw [if_pos (by rw [qsub_self]; exact eps_nonneg)]

/-- `putInvoice` finds the written row under its id, with no uniqueness
    assumption: `find?` rewrites the first hit in place. -/
theorem putInvoice_find? {db X : DB} {inv0 inv2 : Invoice} {j : Nat}
    (hfind : findInvoice db j = some inv0)
    (hX : X.invoices = db.invoices)
    (hid : inv2.id = inv0.id) :
    findInvoice (putInvoice X inv2) j = some inv2 := by
  have hj : inv0.id = j := by simpa using List.find?_some hfind
  show (putInvoice X inv2).invoices.find? _ = _
  unfold putInvoice
  dsimp only
  rw [hX]
  rw [find?_key_map Invoice.id (g := fun i => if i.id == inv2.id then inv2 else i)
    (fun x => by
      dsimp only
      split
      next hx => exact (eq_of_beq hx).symm
      · rfl) db.invoices j]
  rw [show db.invoices.find? (fun x => x.id == j) = some inv0 from hfind]
  dsimp only [Option.map]
  rw [if_pos (by rw [hid]; exact beq_self_eq_true _)]

/-! ### Claim C2 -/

/-- C2 counterexample: in the spec's scenario 4 (fully paid invoice of 20000,
    `remaining_amount = 0` before the credit step), settling the full return
    creates a settlement payment of magnitude 20000, while the claim's
    formula — max(0, -(remaining_amount BEFORE the credit step)), i.e.
    `qabs (qmin 0 remaining)` — gives 0: the settlement is computed from the
    remaining amount AFTER the credit, not before. -/
theorem C2_counterexample :
    (update_return_status CEdb 2 .refunded true).toOption.map (fun d =>
        (d.payments.find? (fun p => p.id == 100)).map (fun p => qabs p.amount)) =
      some (some 20000) ∧
    (findInvoice CEdb 1).map (fun i => qabs (qmin 0 i.remaining_amount)) =
      some 0 ∧
    (20000 : ℚ) ≠ 0 := by
  refine ⟨by decide, by decide, by decide⟩

/-- C2 (amended): after `update_return_status` moves a pending return to
    refunded, the invoice's remaining amount is ≥ -ε, and the settlement
    payment's magnitude equals max(0, -(remaining_amount AFTER the credit
    step)) = max(0, refund_amount - remaining_amount): the code bases it on
    the post-credit remainder, not the pre-credit one.  When that value is
    positive a new negative payment of exactly that magnitude (and fresh id
    `db.next_id`) is inserted; when it is zero no payment is created. -/
theorem C2_settlement {db db' : DB} {rid : Nat} {pm : Bool}
    {ret : InvoiceReturn} {invoice : Invoice}
    (hret : db.returns.find? (fun r => r.id == rid) = some ret)
    (hold : ret.status = .pending_refund)
    (hinv : findInvoice db ret.invoice_id = some invoice)
    (hnone : ret.refund_payment_id = none)
    (h : update_return_status db rid .refunded pm = .ok db') :
    qabs (qmin 0 (qsub invoice.remaining_amount ret.refund_amount)) =
      max 0 (-(invoice.remaining_amount - ret.refund_amount)) ∧
    (∃ inv', findInvoice db' ret.invoice_id = some inv' ∧
      -eps ≤ inv'.remaining_amount) ∧
    (0 < qabs (qmin 0 (qsub invoice.remaining_amount ret.refund_amount)) →
      db'.payments = db.payments ++
        [⟨db.next_id, invoice.customer_id,
          -(qabs (qmin 0 (qsub invoice.remaining_amount ret.refund_amount))),
          false⟩]) ∧
    (qabs (qmin 0 (qsub invoice.remaining_amount ret.refund_amount)) = 0 →
      db'.payments = db.payments) := by
  unfold update_return_status at h
  rw [hret] at h
  dsimp only at h
  split at h
  next heq => rw [hold] at heq; cases heq
  rw [hold] at h
  dsimp only at h
  split at h
  · cases h
  rw [hinv] at h
  have hdb' : refund_transition db rid ret invoice = db' := Except.ok.inj h
  subst hdb'
  refine ⟨by rw [qabs_qmin_zero, qsub_eq], ?_⟩
  unfold refund_transition
  dsimp only
  rcases lt_or_le 0
      (qabs (qmin 0 (qsub invoice.remaining_amount ret.refund_amount))) with
    hpos | hle
  · rw [if_pos hpos, if_pos hnone]
    dsimp only
    refine ⟨⟨refund_status_step (allocate_settlement_to_invoice
        { invoice with remaining_amount :=
          (qsub invoice.remaining_amount ret.refund_amount) }
        (qabs (qmin 0 (qsub invoice.remaining_amount ret.refund_amount)))),
      putInvoice_find? hinv rfl ?_, statusStep_remaining_ge _⟩,
      fun _ => rfl, fun hz => ?_⟩
    · rw [statusStep_id, settle_id]
    · rw [hz] at hpos
      exact absurd hpos (lt_irrefl 0)
  · rw [if_neg (not_lt.mpr hle)]
    have hz : qabs (qmin 0 (qsub invoice.remaining_amount ret.refund_amount)) = 0 :=
      le_antisymm hle (qabs_nonneg _)
    refine ⟨⟨refund_status_step { invoice with remaining_amount :=
        (qsub invoice.remaining_amount ret.refund_amount) },
      putInvoice_find? hinv rfl ?_, statusStep_remaining_ge _⟩,
      fun hp => ?_, fun _ => rfl⟩
    · rw [statusStep_id]
    · rw [hz] at hp
      exact absurd hp (lt_irrefl 0)

set_option maxHeartbeats 1000000 in
/-- C2 witness: the amended statement at the scenario-4 state: the settlement
    payment is -20000 = -(max(0, -(0 - 20000))). -/
theorem C2_settlement_witness :
    qabs (qmin 0 (qsub (0 : ℚ) 20000)) = max 0 (-((0 : ℚ) - 20000)) ∧
    (∃ inv', findInvoice CEdb' 1 = some inv' ∧ -eps ≤ inv'.remaining_amount) ∧
    (0 < qabs (qmin 0 (qsub (0 : ℚ) 20000)) →
      CEdb'.payments = CEdb.payments ++
        [⟨100, 1, -(qabs (qmin 0 (qsub (0 : ℚ) 20000))), false⟩]) ∧
    (qabs (qmin 0 (qsub (0 : ℚ) 20000)) = 0 → CEdb'.payments = CEdb.payments) := by
  have h := C2_settlement
    (show CEdb.returns.find? (fun r => r.id == 2) =
      some ⟨2, 1, 20000, true, .pending_refund, none⟩ by decide)
    (by decide)
    (show findInvoice CEdb 1 = some ⟨1, 1, 20000, 20000, 0, 0, .paid, true, 0⟩
      by decide)
    (by decide)
    (show update_return_status CEdb 2 .refunded true = .ok CEdb' by decide)
  exact ⟨h.1, h.2.1, h.2.2.1, h.2.2.2⟩

/-! ### Claim C1 -/

/-- C1 counterexample: after the spec's own scenario 4 (a fully paid invoice
    of 20000 whose full return is settled through `update_return_status`),
    the spec's equation remaining = total - paid + refunded fails by 20000,
    far outside ε: the operation succeeds and leaves the invoice violating
    `specLedgerEq`. -/
theorem C1_counterexample :
    (update_return_status CEdb 2 .refunded true).toOption.map
      (fun d => (findInvoice d 1).map (fun i => decide (specLedgerEq i))) =
      some (some false) := by decide

/-- C1 (amended): after every mutating operation of the subsystem
    (record_payment, reverse_payment, update_return_status) completes
    successfully, every invoice satisfies the balance equation the code
    actually maintains — remaining_amount = total - paid_amount +
    refunded_amount - (total refund_amount of the invoice's refunded
    returns) — within tolerance ε = 0.01, provided every invoice satisfied
    that equation exactly before the call (table keys unique, manual
    allocation keys unique as Python dict keys are). -/
theorem C1_balance_equation (db : DB)
    (hndI : (db.invoices.map Invoice.id).Nodup)
    (hndR : (db.returns.map InvoiceReturn.id).Nodup)
    (hex : ExactInv db) :
    (∀ cid amt iids mas db' pid, ((mas.getD []).map Prod.fst).Nodup →
      record_payment db cid amt iids mas = .ok (db', pid) → ApproxInv db') ∧
    (∀ pid db', reverse_payment db pid = .ok db' → ApproxInv db') ∧
    (∀ rid ns pm db', update_return_status db rid ns pm = .ok db' →
      ApproxInv db') := by
  refine ⟨?_, ?_, ?_⟩
  · intro cid amt iids mas db' pid hm h
    exact record_payment_approx hndI hm hex h
  · intro pid db' h
    exact reverse_payment_approx hex h
  · intro rid ns pm db' h
    exact update_return_status_approx hndI hndR hex h

/-- C1 witness: the amended statement applied to the concrete scenario-4
    state and its settlement run. -/
theorem C1_balance_equation_witness : ApproxInv CEdb' :=
  (C1_balance_equation CEdb (by decide) (by decide) (by decide)).2.2
    2 .refunded true CEdb' (by decide)

/-! ### Claim C7 -/

/-- C7 (code bug): a single `create_return` request that names the same
    invoice line twice bypasses the availability bound: each entry is
    validated against only the persisted prior returns, so two entries of 10
    against a line of original quantity 10 both pass, and the accepted state
    records 20 units returned on that 10-unit line — the claimed invariant
    (cumulative `quantity_returned` never exceeds the line's original
    quantity) is violated by the very check said to enforce it. -/
theorem C7_return_bound_bug :
    (create_return C7db 1 C7reqs none).toOption.map (fun r =>
      (already_returned r.1 1 10,
        ((itemsOfInvoice C7db 1).find? (fun it => it.id == 10)).map
          InvoiceItem.quantity)) =
      some (20, some 10) ∧ ¬ ((20 : ℚ) ≤ 10) := by
  refine ⟨by decide, by decide⟩

/-! ### Claim C10 -/

/-- C10: manual mode applies an allocation to any existing invoice named in
    `manual_allocations` without checking that it belongs to the paying
    customer, that its status is pending or paid, or that it was exported:
    customer 1's manual payment of 50 lands on customer 2's cancelled,
    never-exported invoice — the call succeeds and mutates that invoice to
    paid 50, remaining 0, status paid. -/
theorem C10_manual_no_ownership_check :
    (record_payment C10db 1 50 none (some [(5, 50)])).toOption.map (fun r =>
      (findInvoice r.1 5).map (fun i =>
        (i.customer_id, i.status, i.exported, i.paid_amount,
          i.remaining_amount))) =
      some (some (2, .paid, false, 50, 0)) := by decide

/-! ### Claims C4 and C5: over-allocation rejection -/

/-- `updById` changes no row's presence: lookups stay `isSome`-equal. -/
theorem updById_find?_isSome {k j : Nat} {f : Invoice → Invoice}
    (hf : ∀ i, (f i).id = i.id) (l : List Invoice) :
    ((updById k f l).find? (fun i => i.id == j)).isSome =
      (l.find? (fun i => i.id == j)).isSome := by
  unfold updById
  rw [find?_key_map Invoice.id
    (fun x => by
      split
      · exact hf x
      · rfl) l j]
  cases l.find? (fun i => i.id == j) <;> rfl

/-- If the manual entries' values sum to more than the unallocated remainder
    and every named invoice exists, the manual loop raises OverAllocation:
    either some entry overruns the running remainder, or an earlier entry
    already overran its invoice's own bound. -/
theorem allocate_manual_over {pid : Nat} :
    ∀ (mas : List (Nat × ℚ)) (db : DB) (rem : ℚ),
      (db.invoices.map Invoice.id).Nodup →
      (∀ m ∈ mas, (findInvoice db m.1).isSome) →
      0 ≤ rem →
      rem < qsum (mas.map Prod.snd) →
      allocate_manual db pid rem mas = .error .overAllocation := by
  intro mas
  induction mas with
  | nil =>
    intro db rem _ _ hge hlt
    rw [show qsum (List.map Prod.snd []) = 0 from rfl] at hlt
    exact absurd hlt (not_lt.mpr hge)
  | cons m t ih =>
    intro db rem hndI hex hge hlt
    obtain ⟨k, a⟩ := m
    simp only [allocate_manual]
    by_cases ha : a > rem
    · rw [if_pos ha]
    rw [if_neg ha]
    cases halloc : allocate_to_invoice db pid k a with
    | error e =>
      have hsome := hex (k, a) (List.mem_cons_self _ _)
      unfold allocate_to_invoice at halloc
      cases hfind : findInvoice db k with
      | none => rw [hfind] at hsome; cases hsome
      | some inv =>
        rw [hfind] at halloc
        dsimp only at halloc
        split at halloc
        · rw [← Except.error.inj halloc]
        · cases halloc
    | ok db₁ =>
      obtain ⟨inv, hfind, hval, hdb₁⟩ := allocate_to_invoice_ok hndI halloc
      have hinv₁ : db₁.invoices = updById k (fwdStep a) db.invoices := by
        rw [hdb₁]
      have hndI₁ : (db₁.invoices.map Invoice.id).Nodup := by
        rw [hinv₁, updById_map_key (fun i => fwdStep_id a i)]
        exact hndI
      have hex₁ : ∀ m ∈ t, (findInvoice db₁ m.1).isSome := by
        intro m hm
        show (db₁.invoices.find? _).isSome = true
        rw [hinv₁, updById_find?_isSome (fun i => fwdStep_id a i)]
        exact hex m (List.mem_cons_of_mem _ hm)
      have hnlt : a ≤ rem := not_lt.mp ha
      have hsumc : qsum (List.map Prod.snd ((k, a) :: t)) =
          a + qsum (t.map Prod.snd) := by
        rw [List.map_cons, qsum_cons]
      refine ih db₁ (qsub rem a) hndI₁ hex₁ ?_ ?_
      · rw [qsub_eq]
        linarith
      · rw [qsub_eq]
        rw [hsumc] at hlt
        linarith

/-- C4: a manual-mode `record_payment` whose allocation values sum to more
    than the payment amount fails with OverAllocationError (provided every
    named invoice exists; a dangling id fails earlier with NotFound).  The
    error return models the session rollback: no payment, allocation or
    invoice write of the failed call survives. -/
theorem C4_manual_overallocation {db : DB} {cid : Nat} {amt : ℚ}
    {iids : Option (List Nat)} {mas : List (Nat × ℚ)}
    (hndI : (db.invoices.map Invoice.id).Nodup)
    (h0 : 0 < amt)
    (hcust : db.customers.contains cid = true)
    (hex : ∀ m ∈ mas, (findInvoice db m.1).isSome)
    (hsum : amt < qsum (mas.map Prod.snd)) :
    record_payment db cid amt iids (some mas) = .error .overAllocation := by
  have hne : mas ≠ [] := by
    intro hnil
    rw [hnil, show qsum (List.map Prod.snd []) = 0 from rfl] at hsum
    linarith
  unfold record_payment
  rw [if_neg (not_le.mpr h0), if_neg (not_not_intro hcust)]
  dsimp only [Option.getD]
  rw [if_pos hne]
  have hman : allocate_manual { db with
      payments := db.payments ++ [⟨db.next_id, cid, amt, false⟩],
      next_id := db.next_id + 1 } db.next_id amt mas = .error .overAllocation :=
    allocate_manual_over mas _ amt hndI hex h0.le hsum
  rw [hman]

/-- C4 witness: a manual map of 20000 + 10000 against a payment of 25000 on
    scenario 2's two invoices is rejected with OverAllocation. -/
theorem C4_manual_overallocation_witness :
    record_payment S2db 1 25000 none (some [(1, 20000), (2, 10000)]) =
      .error .overAllocation :=
  C4_manual_overallocation (by decide) (by decide) (by decide) (by decide)
    (by decide)

/-- C5: an auto-FIFO `record_payment` (no invoice ids, no manual map) whose
    amount exceeds the total remaining debt of the candidate invoices
    (customer's pending/paid invoices with positive remainder and
    `exported_at` set) fails up front with OverAllocationError, before any
    allocation is attempted (the candidate list must be nonempty: an empty
    one fails earlier with NotFound). -/
theorem C5_auto_overallocation {db : DB} {cid : Nat} {amt : ℚ}
    (h0 : 0 < amt)
    (hcust : db.customers.contains cid = true)
    (hne : autoCandidates db cid ≠ [])
    (hsum : qsum ((autoCandidates db cid).map Invoice.remaining_amount) < amt) :
    record_payment db cid amt none none = .error .overAllocation := by
  unfold record_payment
  rw [if_neg (not_le.mpr h0), if_neg (not_not_intro hcust)]
  dsimp only [Option.getD]
  rw [if_neg (fun hc => hc rfl), if_neg (fun hc => hc rfl)]
  have hAC : autoCandidates { db with
      payments := db.payments ++ [⟨db.next_id, cid, amt, false⟩],
      next_id := db.next_id + 1 } cid = autoCandidates db cid := rfl
  rw [hAC]
  rw [if_neg (fun hc => hne (List.isEmpty_iff.mp hc))]
  rw [if_pos hsum]

/-- C5 witness: scenario 2's state (candidate debt 50000 + 70000 = 120000)
    rejects an auto payment of 150000 with OverAllocation. -/
theorem C5_auto_overallocation_witness :
    record_payment S2db 1 150000 none none = .error .overAllocation :=
  C5_auto_overallocation (by decide) (by decide) (by decide) (by decide)

/-! ### Claim C3: record-then-reverse round trip -/

theorem filter_none {α : Type} {p : α → Bool} {l : List α}
    (h : ∀ x ∈ l, p x = false) : l.filter p = [] := by
  induction l with
  | nil => rfl
  | cons b t ih =>
    rw [List.filter_cons, h b (List.mem_cons_self _ _)]
    exact ih fun x hx => h x (List.mem_cons_of_mem _ hx)

/-- `putInvoice` leaves lookups of other ids unchanged. -/
theorem putInvoice_find?_ne {X : DB} {inv2 : Invoice} {j : Nat}
    (hne : inv2.id ≠ j) :
    findInvoice (putInvoice X inv2) j = findInvoice X j := by
  show (putInvoice X inv2).invoices.find? _ = X.invoices.find? _
  unfold putInvoice
  dsimp only
  rw [find?_key_map Invoice.id
    (fun x => by
      split
      next hx => exact (eq_of_beq hx).symm
      · rfl) X.invoices j]
  cases hf : X.invoices.find? (fun x => x.id == j) with
  | none => rfl
  | some r =>
    have hrj : r.id = j := by simpa using List.find?_some hf
    dsimp only [Option.map]
    rw [if_neg (by simp [hrj]; exact fun hc => hne hc.symm)]

/-- The pure round trip on one invoice row: undoing an allocation restores
    the row exactly, provided the forward step did not hit the ≤ ε clamp and
    the invoice was pending. -/
theorem bwd_fwd_roundtrip {inv : Invoice} {a : ℚ}
    (hpend : inv.status = .pending)
    (hnc : eps < qsub inv.remaining_amount a) :
    bwdStep a (fwdStep a inv) = inv := by
  have hstep : fwdStep a inv = { inv with
      paid_amount := qadd inv.paid_amount a,
      remaining_amount := qsub inv.remaining_amount a } := by
    unfold fwdStep
    dsimp only
    rw [if_neg (not_le.mpr hnc)]
  rw [hstep]
  unfold bwdStep
  dsimp only
  have h1 : qsub (qadd inv.paid_amount a) a = inv.paid_amount := by
    rw [qadd_eq, qsub_eq]; ring
  have h2 : qadd (qsub inv.remaining_amount a) a = inv.remaining_amount := by
    rw [qadd_eq, qsub_eq]; ring
  rw [h1, h2]
  by_cases hp0 : inv.paid_amount = 0
  · rw [if_pos hp0, ← hpend]
  · rw [if_neg hp0,
      if_neg (fun hc => InvoiceStatus.noConfusion (hpend.symm.trans hc.1))]

/-- C3 counterexample: a manual payment of 99.995 on a pending invoice of 100
    triggers the ≤ ε clamp (remaining 0.005 is cleaned to exactly 0), so
    reversing the payment restores paid_amount and status but leaves
    remaining_amount at 99.995 instead of the original 100: the round trip is
    not the identity on invoice financial state. -/
theorem C3_counterexample :
    ((record_payment C3db 1 (mkRat 19999 200) none
        (some [(1, mkRat 19999 200)])).toOption.map (fun r =>
      (reverse_payment r.1 100).toOption.map (fun d =>
        (findInvoice d 1).map (fun i =>
          (i.paid_amount, i.remaining_amount, i.status))))) =
      some (some (some (0, mkRat 19999 200, .pending))) ∧
    (findInvoice C3db 1).map (fun i =>
        (i.paid_amount, i.remaining_amount, i.status)) =
      some (0, 100, .pending) ∧
    (mkRat 19999 200 : ℚ) ≠ 100 := by
  refine ⟨by decide, by decide, by decide⟩

/-- C3 (amended): the record-then-reverse round trip restores the touched
    invoice EXACTLY (and leaves every other invoice untouched) only under a
    no-clamp side condition: the allocation must leave the invoice's
    remainder strictly above ε (so `_allocate_to_invoice` does not rewrite it
    to 0) and the invoice must be pending.  Without that condition the claim
    fails (see the counterexample).  Fresh-id hypotheses say the state does
    not already use the id the new payment will get. -/
theorem C3_roundtrip {db db1 db2 : DB} {cid pid k : Nat} {a : ℚ} {inv : Invoice}
    (hndI : (db.invoices.map Invoice.id).Nodup)
    (hfreshA : ∀ al ∈ db.allocations, al.payment_id ≠ db.next_id)
    (hfind : findInvoice db k = some inv)
    (hpend : inv.status = .pending)
    (hnc : eps < qsub inv.remaining_amount a)
    (hrec : record_payment db cid a none (some [(k, a)]) = .ok (db1, pid))
    (hrev : reverse_payment db1 pid = .ok db2) :
    findInvoice db2 k = some inv ∧
    ∀ j, j ≠ k → findInvoice db2 j = findInvoice db j := by
  have hinvid : inv.id = k := by simpa using List.find?_some hfind
  unfold record_payment at hrec
  split at hrec
  · cases hrec
  split at hrec
  · cases hrec
  dsimp only [Option.getD] at hrec
  set db₀ : DB := { db with
    payments := db.payments ++ [⟨db.next_id, cid, a, false⟩],
    next_id := db.next_id + 1 } with hdb₀
  split at hrec
  · cases hrec
  next dbm heq =>
    obtain ⟨hdbm, hpid⟩ := Prod.mk.inj (Except.ok.inj hrec)
    subst hpid
    have hdbm' : db1 = dbm := hdbm.symm
    subst hdbm'
    split at heq
    case isFalse hcond => exact (hcond (by simp)).elim
    simp only [allocate_manual] at heq
    split at heq
    · cases heq
    cases halloc : allocate_to_invoice db₀ db.next_id k a with
    | error e => rw [halloc] at heq; cases heq
    | ok dbx =>
      rw [halloc] at heq
      dsimp only at heq
      have hdbx : db1 = dbx := (Except.ok.inj heq).symm
      subst hdbx
      obtain ⟨inv₀, hfind₀, hval₀, hdb1eq⟩ :=
        allocate_to_invoice_ok (show (db₀.invoices.map Invoice.id).Nodup
          from hndI) halloc
      have hA1 : db1.allocations = db.allocations ++ [⟨db.next_id, k, a⟩] := by
        rw [hdb1eq]
      have hI1 : db1.invoices = updById k (fwdStep a) db.invoices := by
        rw [hdb1eq]
      have hfind1k : findInvoice db1 k = some (fwdStep a inv) := by
        show db1.invoices.find? _ = _
        rw [hI1, updById_find?_eq (fun i => fwdStep_id a i) db.invoices,
          show db.invoices.find? (fun i => i.id == k) = some inv from hfind]
        rfl
      obtain ⟨p₀, hfp, hprev, hdb2⟩ := reverse_payment_ok hrev
      have hfilter : db1.allocations.filter
          (fun al => al.payment_id == db.next_id) = [⟨db.next_id, k, a⟩] := by
        rw [hA1, List.filter_append,
          filter_none (fun al hal => by simpa using hfreshA al hal)]
        simp
      have hfold : (db1.allocations.filter
          (fun al => al.payment_id == db.next_id)).foldl
            reverse_allocation db1 = putInvoice db1 inv := by
        rw [hfilter]
        show reverse_allocation db1 ⟨db.next_id, k, a⟩ = _
        unfold reverse_allocation
        dsimp only
        rw [hfind1k]
        dsimp only
        rw [bwd_fwd_roundtrip hpend hnc]
      have hinv2 : db2.invoices = (putInvoice db1 inv).invoices := by
        rw [hdb2, hfold]
      constructor
      · show db2.invoices.find? _ = _
        rw [hinv2]
        exact putInvoice_find? hfind1k rfl (fwdStep_id a inv).symm
      · intro j hj
        show db2.invoices.find? _ = db.invoices.find? _
        rw [hinv2]
        have hne : inv.id ≠ j := fun hc => hj (hc ▸ hinvid.symm ▸ rfl)
        rw [show ((putInvoice db1 inv).invoices.find? (fun i => i.id == j)) =
            findInvoice (putInvoice db1 inv) j from rfl,
          putInvoice_find?_ne hne]
        show db1.invoices.find? _ = _
        rw [hI1]
        exact updById_find?_ne (fun i => fwdStep_id a i) db.invoices hj

/-- C3 witness: a clean manual payment of 40 on a pending invoice of 100
    (remaining 60 > ε afterwards), then its reversal, restores the original
    row and touches nothing else. -/
theorem C3_roundtrip_witness :
    findInvoice C3Wdb2 1 = some ⟨1, 1, 100, 0, 0, 100, .pending, true, 0⟩ ∧
    ∀ j, j ≠ 1 → findInvoice C3Wdb2 j = findInvoice C3db j := by
  have h := C3_roundtrip (by decide) (by decide)
    (show findInvoice C3db 1 = some ⟨1, 1, 100, 0, 0, 100, .pending, true, 0⟩
      by decide)
    (by decide) (by decide)
    (show record_payment C3db 1 40 none (some [(1, 40)]) = .ok (C3Wdb1, 100)
      by decide)
    (show reverse_payment C3Wdb1 100 = .ok C3Wdb2 by decide)
  exact ⟨h.1, h.2⟩

/-! ### Claim C8: refunded is terminal -/

/-- The settled transition rewrites one return row (keeping its id) and
    leaves every other return row untouched. -/
theorem refund_transition_returns_char (db : DB) (rid : Nat)
    (ret : InvoiceReturn) (invoice : Invoice) :
    ∃ ret2 : InvoiceReturn, ret2.id = ret.id ∧
      (refund_transition db rid ret invoice).returns =
        db.returns.map (fun r => if r.id == rid then ret2 else r) := by
  unfold refund_transition
  dsimp only
  split
  · split
    · refine ⟨_, ?_, rfl⟩
      rfl
    · refine ⟨_, ?_, rfl⟩
      rfl
  · refine ⟨_, ?_, rfl⟩
    rfl

/-- One successful `update_return_status` call cannot touch a return that is
    already refunded: its row is found unchanged afterwards. -/
theorem update_preserves_refunded {db db' : DB} {rid rid2 : Nat}
    {ret : InvoiceReturn} {ns : ReturnStatus} {pm : Bool}
    (hret : db.returns.find? (fun r => r.id == rid) = some ret)
    (hst : ret.status = .refunded)
    (h : update_return_status db rid2 ns pm = .ok db') :
    db'.returns.find? (fun r => r.id == rid) = some ret := by
  have hrid : ret.id = rid := by simpa using List.find?_some hret
  rcases update_return_status_ok_cases h with rfl | ⟨retX, invoice, hretX, holdX, _, _, _, rfl⟩
  · exact hret
  · have hne : rid ≠ rid2 := by
      intro hc
      subst hc
      rw [hret] at hretX
      have : ret = retX := Option.some.inj hretX
      rw [← this, hst] at holdX
      cases holdX
    have hXid : retX.id = rid2 := by simpa using List.find?_some hretX
    obtain ⟨ret2, hrid2, hrets⟩ :=
      refund_transition_returns_char db rid2 retX invoice
    rw [hrets]
    rw [find?_key_map InvoiceReturn.id
      (fun x => by
        split
        next hx => rw [hrid2, hXid, ← eq_of_beq hx]
        · rfl) db.returns rid]
    rw [hret]
    dsimp only [Option.map]
    rw [if_neg (by simp [hrid]; exact fun hc => hne hc)]

/-- No sequence of status updates moves a refunded return: its row survives
    every call (failed calls roll back, successful ones do not touch it). -/
theorem run_preserves_refunded {rid : Nat} {ret : InvoiceReturn}
    (hst : ret.status = .refunded) :
    ∀ (cmds : List (Nat × ReturnStatus × Bool)) (db : DB),
      db.returns.find? (fun r => r.id == rid) = some ret →
      (run_status_updates db cmds).returns.find? (fun r => r.id == rid) =
        some ret := by
  intro cmds
  induction cmds with
  | nil => intro db hret; exact hret
  | cons c rest ih =>
    intro db hret
    show (match update_return_status db c.1 c.2.1 c.2.2 with
      | .error _ => run_status_updates db rest
      | .ok db' => run_status_updates db' rest).returns.find? _ = _
    cases hu : update_return_status db c.1 c.2.1 c.2.2 with
    | error e => exact ih db hret
    | ok db1 => exact ih db1 (update_preserves_refunded hret hst hu)

/-- C8: refunded is terminal.  The explicit refunded -> pending_refund
    request is rejected with IllegalStateTransition (the error return models
    the rollback: nothing is written), and no sequence of
    `update_return_status` calls — succeeding or failing — ever changes a
    refunded return's row. -/
theorem C8_refunded_terminal {db : DB} {rid : Nat} {ret : InvoiceReturn}
    (hret : db.returns.find? (fun r => r.id == rid) = some ret)
    (hst : ret.status = .refunded) :
    (∀ pm, update_return_status db rid .pending_refund pm =
      .error .illegalState) ∧
    ∀ cmds, (run_status_updates db cmds).returns.find?
      (fun r => r.id == rid) = some ret := by
  constructor
  · intro pm
    unfold update_return_status
    rw [hret]
    dsimp only
    rw [if_neg (fun hc => ReturnStatus.noConfusion (hst.symm.trans hc)), hst]
  · intro cmds
    exact run_preserves_refunded hst cmds db hret

/-- C8 witness: the settled scenario-4 state: return 2 is refunded; flipping
    it back is rejected, and a further (here: that same illegal) call leaves
    its row intact. -/
theorem C8_refunded_terminal_witness :
    update_return_status CEdb' 2 .pending_refund true = .error .illegalState ∧
    (run_status_updates CEdb' [(2, .pending_refund, true)]).returns.find?
      (fun r => r.id == 2) = some ⟨2, 1, 20000, true, .refunded, some 100⟩ := by
  have h := C8_refunded_terminal
    (show CEdb'.returns.find? (fun r => r.id == 2) =
      some ⟨2, 1, 20000, true, .refunded, some 100⟩ by decide)
    (by decide)
  exact ⟨h.1 true, h.2 [(2, .pending_refund, true)]⟩

/-! ### Claim C9: create_return frame -/

/-- Validation preserves the requested lines one-for-one: ids, quantities and
    restock flags of the validated list are exactly those requested. -/
theorem validate_ok_proj {db : DB} {invoice : Invoice} :
    ∀ (reqs : List ReturnItemRequest) {v : List ValidatedItem},
      validate_return_items db invoice reqs = .ok v →
      v.map ValidatedItem.invoice_item_id =
        reqs.map ReturnItemRequest.invoice_item_id ∧
      v.map ValidatedItem.quantity_returned =
        reqs.map ReturnItemRequest.quantity_returned ∧
      v.map ValidatedItem.restore_inventory =
        reqs.map ReturnItemRequest.restore_inventory := by
  intro reqs
  induction reqs with
  | nil =>
    intro v h
    simp only [validate_return_items] at h
    rw [← Except.ok.inj h]
    exact ⟨rfl, rfl, rfl⟩
  | cons req rest ih =>
    intro v h
    simp only [validate_return_items] at h
    cases hit : (itemsOfInvoice db invoice.id).find?
        (fun it => it.id == req.invoice_item_id) with
    | none => rw [hit] at h; cases h
    | some item =>
      rw [hit] at h
      dsimp only at h
      split at h
      · cases h
      cases hrec : validate_return_items db invoice rest with
      | error e => rw [hrec] at h; cases h
      | ok w =>
        rw [hrec] at h
        obtain ⟨h1, h2, h3⟩ := ih hrec
        rw [← Except.ok.inj h]
        simp only [List.map_cons]
        exact ⟨by rw [h1], by rw [h2], by rw [h3]⟩

theorem restockOf_cons (x : ValidatedItem) (t : List ValidatedItem) (j : Nat) :
    restockOf (x :: t) j =
      (if x.restore_inventory ∧ x.product_id = some j
        then x.quantity_returned else 0) + restockOf t j := by
  unfold restockOf
  rw [List.filter_cons]
  by_cases h1 : x.restore_inventory = true
  · by_cases h2 : x.product_id = some j
    · rw [if_pos (by simp [h1, h2]), if_pos ⟨h1, h2⟩, List.map_cons, qsum_cons]
    · rw [if_neg (by simp [h1, h2]), if_neg (by tauto), zero_add]
  · rw [if_neg (by simp [h1]), if_neg (by tauto), zero_add]

/-- One restock step only rewrites the products table's stock column. -/
theorem restore_step_eq (db : DB) (x : ValidatedItem) :
    restore_inventory_step db x =
      { db with products := (restore_inventory_step db x).products } := by
  unfold restore_inventory_step
  split
  · split
    · rfl
    · split
      · rfl
      · rfl
  · rfl

/-- `_restore_inventory` touches nothing but the products table. -/
theorem restore_frame :
    ∀ (v : List ValidatedItem) (db : DB),
      (restore_inventory db v).customers = db.customers ∧
      (restore_inventory db v).invoices = db.invoices ∧
      (restore_inventory db v).invoice_items = db.invoice_items ∧
      (restore_inventory db v).payments = db.payments ∧
      (restore_inventory db v).allocations = db.allocations ∧
      (restore_inventory db v).returns = db.returns ∧
      (restore_inventory db v).return_items = db.return_items ∧
      (restore_inventory db v).next_id = db.next_id := by
  intro v
  induction v with
  | nil => intro db; exact ⟨rfl, rfl, rfl, rfl, rfl, rfl, rfl, rfl⟩
  | cons x t ih =>
    intro db
    have hs := restore_step_eq db x
    have ht := ih (restore_inventory_step db x)
    exact ⟨ht.1.trans (by rw [hs]), ht.2.1.trans (by rw [hs]),
      ht.2.2.1.trans (by rw [hs]), ht.2.2.2.1.trans (by rw [hs]),
      ht.2.2.2.2.1.trans (by rw [hs]), ht.2.2.2.2.2.1.trans (by rw [hs]),
      ht.2.2.2.2.2.2.1.trans (by rw [hs]), ht.2.2.2.2.2.2.2.trans (by rw [hs])⟩

/-- What one restock step does to the products table: ids are preserved, and
    each product's stock grows by the step's contribution to it. -/
theorem restore_step_products {db : DB} (x : ValidatedItem)
    (hndP : (db.products.map Product.id).Nodup) :
    (restore_inventory_step db x).products.map Product.id =
      db.products.map Product.id ∧
    ∀ p ∈ db.products,
      (restore_inventory_step db x).products.find? (fun q => q.id == p.id) =
        some { p with stock_quantity := p.stock_quantity +
          (if x.restore_inventory ∧ x.product_id = some p.id
            then x.quantity_returned else 0) } := by
  have hid : ∀ p ∈ db.products,
      db.products.find? (fun q => q.id == p.id) = some p :=
    fun p hp => find?_key_eq_some hndP hp
  have htriv : ∀ p : Product,
      ({ p with stock_quantity := p.stock_quantity + 0 } : Product) = p := by
    intro p
    rw [add_zero]
  by_cases hflag : x.restore_inventory = true
  case neg =>
    have hstep : restore_inventory_step db x = db := by
      unfold restore_inventory_step
      rw [if_neg hflag]
    rw [hstep]
    refine ⟨rfl, fun p hp => ?_⟩
    rw [if_neg (fun hc => hflag hc.1), htriv]
    exact hid p hp
  case pos =>
    cases hpid : x.product_id with
    | none =>
      have hstep : restore_inventory_step db x = db := by
        unfold restore_inventory_step
        rw [if_pos hflag, hpid]
      rw [hstep]
      refine ⟨rfl, fun p hp => ?_⟩
      rw [if_neg (fun hc => Option.noConfusion hc.2), htriv]
      exact hid p hp
    | some pid =>
      cases hfd : db.products.find? (fun q => q.id == pid) with
      | none =>
        have hstep : restore_inventory_step db x = db := by
          unfold restore_inventory_step
          rw [if_pos hflag, hpid]
          dsimp only
          rw [hfd]
        rw [hstep]
        refine ⟨rfl, fun p hp => ?_⟩
        have hne : ¬ (x.restore_inventory = true ∧ some pid = some p.id) := by
          intro hc
          rw [Option.some.inj hc.2] at hfd
          rw [hid p hp] at hfd
          cases hfd
        rw [if_neg hne, htriv]
        exact hid p hp
      | some r =>
        have hstep : restore_inventory_step db x = { db with
            products := db.products.map (fun p =>
              if p.id == pid then
                { p with stock_quantity :=
                  (qadd p.stock_quantity x.quantity_returned) }
              else p) } := by
          unfold restore_inventory_step
          rw [if_pos hflag, hpid]
          dsimp only
          rw [hfd]
        rw [hstep]
        constructor
        · dsimp only
          rw [List.map_map]
          apply List.map_congr_left
          intro p hp
          show (if p.id == pid then _ else p).id = p.id
          split
          · rfl
          · rfl
        · intro p hp
          dsimp only
          rw [find?_key_map Product.id (fun q => by split <;> rfl)
            db.products p.id]
          rw [hid p hp]
          dsimp only [Option.map]
          by_cases hpeq : p.id = pid
          · rw [if_pos (by simp [hpeq]),
              if_pos ⟨hflag, by rw [hpeq]⟩, qadd_eq]
          · rw [if_neg (by simp [hpeq]),
              if_neg (fun hc => hpeq (Option.some.inj hc.2).symm),
              htriv]

/-- The whole restock pass: ids preserved, each product's stock grows by the
    validated list's total restock for it. -/
theorem restore_inventory_products :
    ∀ (v : List ValidatedItem) (db : DB),
      (db.products.map Product.id).Nodup →
      (restore_inventory db v).products.map Product.id =
        db.products.map Product.id ∧
      ∀ p ∈ db.products,
        (restore_inventory db v).products.find? (fun q => q.id == p.id) =
          some { p with stock_quantity :=
            p.stock_quantity + restockOf v p.id } := by
  intro v
  induction v with
  | nil =>
    intro db hndP
    refine ⟨rfl, fun p hp => ?_⟩
    show db.products.find? (fun q => q.id == p.id) =
      some { p with stock_quantity := p.stock_quantity + restockOf [] p.id }
    rw [find?_key_eq_some hndP hp,
      show restockOf [] p.id = (0 : ℚ) from rfl, add_zero]
  | cons x t ih =>
    intro db hndP
    obtain ⟨hmap1, hfind1⟩ := restore_step_products x hndP
    have hndP1 : ((restore_inventory_step db x).products.map Product.id).Nodup := by
      rw [hmap1]
      exact hndP
    obtain ⟨hmap2, hfind2⟩ := ih (restore_inventory_step db x) hndP1
    refine ⟨hmap2.trans hmap1, fun p hp => ?_⟩
    have hp1fd := hfind1 p hp
    have hp1 := List.mem_of_find?_eq_some hp1fd
    have hrec := hfind2 _ hp1
    refine hrec.trans (congrArg some ?_)
    show ({ p with stock_quantity := p.stock_quantity +
        (if x.restore_inventory ∧ x.product_id = some p.id
          then x.quantity_returned else 0) + restockOf t p.id } : Product) =
      { p with stock_quantity := p.stock_quantity + restockOf (x :: t) p.id }
    rw [restockOf_cons, ← add_assoc]

set_option maxHeartbeats 1000000 in
/-- C9: a successful `create_return` has no cash effect: the invoice table
    (financial fields and status included), payments and allocations are
    untouched; the only effects are the appended pending_refund return row,
    its return items (exactly the requested lines), and a stock increase of
    each product by the total quantity returned on its flagged lines. -/
theorem C9_create_return_frame {db db' : DB} {iid rid : Nat}
    {reqs : List ReturnItemRequest} {ov : Option ℚ}
    (hndP : (db.products.map Product.id).Nodup)
    (h : create_return db iid reqs ov = .ok (db', rid)) :
    db'.invoices = db.invoices ∧
    db'.payments = db.payments ∧
    db'.allocations = db.allocations ∧
    db'.customers = db.customers ∧
    db'.invoice_items = db.invoice_items ∧
    rid = db.next_id ∧
    (∃ row : InvoiceReturn, db'.returns = db.returns ++ [row] ∧
      row.status = .pending_refund ∧ row.id = rid ∧ row.invoice_id = iid) ∧
    ∃ validated : List ValidatedItem,
      db'.return_items = db.return_items ++ validated.map (fun v =>
        (⟨rid, v.invoice_item_id, v.product_id, v.quantity_returned,
          v.subtotal, v.restore_inventory⟩ : InvoiceReturnItem)) ∧
      validated.map ValidatedItem.invoice_item_id =
        reqs.map ReturnItemRequest.invoice_item_id ∧
      validated.map ValidatedItem.quantity_returned =
        reqs.map ReturnItemRequest.quantity_returned ∧
      validated.map ValidatedItem.restore_inventory =
        reqs.map ReturnItemRequest.restore_inventory ∧
      db'.products.map Product.id = db.products.map Product.id ∧
      ∀ p ∈ db.products, db'.products.find? (fun q => q.id == p.id) =
        some { p with stock_quantity :=
          p.stock_quantity + restockOf validated p.id } := by
  unfold create_return at h
  cases hfind : findInvoice db iid with
  | none => rw [hfind] at h; cases h
  | some invoice =>
    rw [hfind] at h
    dsimp only at h
    split at h
    · cases h
    split at h
    · cases h
    cases hval : validate_return_items db invoice reqs with
    | error e => rw [hval] at h; cases h
    | ok validated =>
      rw [hval] at h
      dsimp only at h
      obtain ⟨hdb', hrid⟩ := Prod.mk.inj (Except.ok.inj h)
      subst hrid
      subst hdb'
      obtain ⟨hv1, hv2, hv3⟩ := validate_ok_proj reqs hval
      have hfr := restore_frame validated { db with
        returns := db.returns ++ [⟨db.next_id, iid,
          ov.getD (qsum (validated.map ValidatedItem.subtotal)),
          is_full_return db invoice validated, .pending_refund, none⟩],
        return_items := db.return_items ++ validated.map (fun v =>
          (⟨db.next_id, v.invoice_item_id, v.product_id, v.quantity_returned,
            v.subtotal, v.restore_inventory⟩ : InvoiceReturnItem)),
        next_id := db.next_id + 1 }
      obtain ⟨hpm, hpf⟩ := restore_inventory_products validated { db with
        returns := db.returns ++ [⟨db.next_id, iid,
          ov.getD (qsum (validated.map ValidatedItem.subtotal)),
          is_full_return db invoice validated, .pending_refund, none⟩],
        return_items := db.return_items ++ validated.map (fun v =>
          (⟨db.next_id, v.invoice_item_id, v.product_id, v.quantity_returned,
            v.subtotal, v.restore_inventory⟩ : InvoiceReturnItem)),
        next_id := db.next_id + 1 } hndP
      refine ⟨hfr.2.1, hfr.2.2.2.1, hfr.2.2.2.2.1, hfr.1, hfr.2.2.1,
        rfl, ⟨_, hfr.2.2.2.2.2.1, rfl, rfl, rfl⟩,
        validated, hfr.2.2.2.2.2.2.1, hv1, hv2, hv3, hpm, hpf⟩

/-- C9 witness: returning 4 flagged units of product 7 and 1 unflagged unit
    from the partially paid invoice of `C9db`: balances and status untouched,
    one pending_refund return row, two item rows, stock of product 7 up by 4,
    product 8 untouched. -/
theorem C9_create_return_frame_witness :
    C9db'.invoices = C9db.invoices ∧
    C9db'.payments = C9db.payments ∧
    C9db'.allocations = C9db.allocations ∧
    C9db'.customers = C9db.customers ∧
    C9db'.invoice_items = C9db.invoice_items ∧
    (100 : Nat) = C9db.next_id ∧
    (∃ row : InvoiceReturn, C9db'.returns = C9db.returns ++ [row] ∧
      row.status = .pending_refund ∧ row.id = 100 ∧ row.invoice_id = 1) ∧
    ∃ validated : List ValidatedItem,
      C9db'.return_items = C9db.return_items ++ validated.map (fun v =>
        (⟨100, v.invoice_item_id, v.product_id, v.quantity_returned,
          v.subtotal, v.restore_inventory⟩ : InvoiceReturnItem)) ∧
      validated.map ValidatedItem.invoice_item_id =
        C9reqs.map ReturnItemRequest.invoice_item_id ∧
      validated.map ValidatedItem.quantity_returned =
        C9reqs.map ReturnItemRequest.quantity_returned ∧
      validated.map ValidatedItem.restore_inventory =
        C9reqs.map ReturnItemRequest.restore_inventory ∧
      C9db'.products.map Product.id = C9db.products.map Product.id ∧
      ∀ p ∈ C9db.products, C9db'.products.find? (fun q => q.id == p.id) =
        some { p with stock_quantity :=
          p.stock_quantity + restockOf validated p.id } := by
  have h := C9_create_return_frame (by decide)
    (show create_return C9db 1 C9reqs none = .ok (C9db', 100) by decide)
  exact h

/-! ### Claim C6: strict oldest-first exhaustion in auto-FIFO mode -/

theorem fifoPlan_nonpos {db : DB} {cash : ℚ} (h : cash ≤ 0) :
    ∀ ids : List Nat, fifoPlan db cash ids = [] := by
  intro ids
  cases ids with
  | nil => rfl
  | cons iid rest =>
    simp only [fifoPlan]
    rw [if_pos h]

/-- The FIFO plan pays the candidates in order: its n-th entry names the
    n-th candidate. -/
theorem fifoPlan_get?_fst {db : DB} :
    ∀ (ids : List Nat) (cash : ℚ) (n : Nat) {m : Nat × ℚ},
      (fifoPlan db cash ids).get? n = some m → ids.get? n = some m.1 := by
  intro ids
  induction ids with
  | nil =>
    intro cash n m h
    simp [fifoPlan] at h
  | cons iid rest ih =>
    intro cash n m h
    simp only [fifoPlan] at h
    by_cases hc : cash ≤ 0
    · rw [if_pos hc] at h
      simp at h
    rw [if_neg hc] at h
    cases hfind : findInvoice db iid with
    | none =>
      rw [hfind] at h
      simp at h
    | some inv =>
      rw [hfind] at h
      dsimp only at h
      cases n with
      | zero =>
        rw [← Option.some.inj h]
        rfl
      | succ n' =>
        exact ih (qsub cash (qmin cash inv.remaining_amount)) n' h

/-- If the plan has an entry after position k, the entry at position k pays
    its invoice exactly its full remainder. -/
theorem fifoPlan_succ {db : DB} :
    ∀ (ids : List Nat) (cash : ℚ) (k : Nat) {m : Nat × ℚ},
      (fifoPlan db cash ids).get? (k + 1) = some m →
      ∃ m0 inv0, (fifoPlan db cash ids).get? k = some m0 ∧
        findInvoice db m0.1 = some inv0 ∧ m0.2 = inv0.remaining_amount := by
  intro ids
  induction ids with
  | nil =>
    intro cash k m h
    simp [fifoPlan] at h
  | cons iid rest ih =>
    intro cash k m h
    by_cases hc : cash ≤ 0
    · rw [fifoPlan_nonpos hc] at h
      simp at h
    cases hfind : findInvoice db iid with
    | none =>
      simp only [fifoPlan] at h
      rw [if_neg hc, hfind] at h
      simp at h
    | some inv =>
      have hplan : fifoPlan db cash (iid :: rest) =
          (iid, qmin cash inv.remaining_amount) ::
            fifoPlan db (qsub cash (qmin cash inv.remaining_amount)) rest := by
        simp only [fifoPlan]
        rw [if_neg hc, hfind]
      rw [hplan] at h ⊢
      cases k with
      | zero =>
        by_cases hcr : cash ≤ inv.remaining_amount
        · rw [show qmin cash inv.remaining_amount = cash from by
              unfold qmin; rw [if_pos hcr]] at h
          rw [qsub_self, fifoPlan_nonpos le_rfl] at h
          simp at h
        · refine ⟨(iid, qmin cash inv.remaining_amount), inv, rfl, hfind, ?_⟩
          show qmin cash inv.remaining_amount = inv.remaining_amount
          unfold qmin
          rw [if_neg hcr]
      | succ k' =>
        obtain ⟨m0, inv0, h0, hf0, hv0⟩ :=
          ih (qsub cash (qmin cash inv.remaining_amount)) k' h
        exact ⟨m0, inv0, h0, hf0, hv0⟩

set_option maxHeartbeats 1000000 in
/-- C6: in auto-FIFO mode, candidate k+1 receives an allocation row in the
    recorded payment only if candidate k was paid exactly its full remainder
    by the same call, leaving its remaining_amount at 0 ≤ ε: strict
    oldest-first exhaustion.  (Freshness: no existing allocation already uses
    the id the new payment gets.) -/
theorem C6_fifo_exhaustion {db db' : DB} {cid pid : Nat} {amt : ℚ} {k : Nat}
    {invk invk1 : Invoice}
    (hndI : (db.invoices.map Invoice.id).Nodup)
    (hfreshA : ∀ al ∈ db.allocations, al.payment_id ≠ db.next_id)
    (h : record_payment db cid amt none none = .ok (db', pid))
    (hk : (autoCandidates db cid).get? k = some invk)
    (hk1 : (autoCandidates db cid).get? (k + 1) = some invk1)
    (hrow : ∃ al ∈ db'.allocations, al.payment_id = pid ∧
      al.invoice_id = invk1.id ∧ al.amount ≠ 0) :
    ∃ invk', findInvoice db' invk.id = some invk' ∧
      invk'.remaining_amount ≤ eps := by
  unfold record_payment at h
  split at h
  · cases h
  split at h
  · cases h
  dsimp only [Option.getD] at h
  set db₀ : DB := { db with
    payments := db.payments ++ [⟨db.next_id, cid, amt, false⟩],
    next_id := db.next_id + 1 } with hdb₀
  split at h
  · cases h
  next dbm heq =>
    obtain ⟨hdbm, hpid⟩ := Prod.mk.inj (Except.ok.inj h)
    subst hpid
    have hdbm' : db' = dbm := hdbm.symm
    subst hdbm'
    split at heq
    case isTrue hcond => exact (hcond rfl).elim
    split at heq
    case isTrue hcond => exact (hcond rfl).elim
    split at heq
    · cases heq
    split at heq
    · cases heq
    have hACeq : autoCandidates db₀ cid = autoCandidates db cid := rfl
    rw [hACeq] at heq
    have hndI₀ : (db₀.invoices.map Invoice.id).Nodup := hndI
    have hcnd : ((autoCandidates db cid).map Invoice.id).Nodup :=
      sorted_filter_nodup hndI
    have hsome : ∀ j ∈ (autoCandidates db cid).map Invoice.id,
        (findInvoice db₀ j).isSome := by
      intro j hj
      obtain ⟨c, hcmem, hcid⟩ := List.mem_map.mp hj
      have hcinv : c ∈ db.invoices := (sorted_filter_mem hcmem).1
      rw [← hcid, show findInvoice db₀ c.id =
          db.invoices.find? (fun i => i.id == c.id) from rfl,
        find?_key_eq_some hndI hcinv]
      rfl
    rw [allocate_fifo_eq_manual _ db₀ amt hndI₀ hcnd hsome] at heq
    rw [@fifoPlan_congr db₀ db ((autoCandidates db cid).map Invoice.id) amt
      (fun j _ => rfl)] at heq
    have hplannd : ((fifoPlan db amt
        ((autoCandidates db cid).map Invoice.id)).map Prod.fst).Nodup :=
      (fifoPlan_keys_sublist db
        ((autoCandidates db cid).map Invoice.id) amt).nodup hcnd
    obtain ⟨hc, hii, hp, hr, hri, hpr, hn, hal, hidmap, hmiss, hhit⟩ :=
      allocate_manual_ok _ db₀ amt db' hndI₀ hplannd heq
    obtain ⟨al, halmem, halpid, halinv, halne⟩ := hrow
    rw [hal] at halmem
    rcases List.mem_append.mp halmem with hleft | hright
    · exact absurd halpid (hfreshA al hleft)
    · obtain ⟨mE, hmE, halval⟩ := List.mem_map.mp hright
      have hm1 : mE.1 = invk1.id := by rw [← halinv, ← halval]
      obtain ⟨n, hn⟩ := List.get?_of_mem hmE
      have hn1 : ((autoCandidates db cid).map Invoice.id).get? n =
          some invk1.id := by
        rw [← hm1]
        exact fifoPlan_get?_fst _ amt n hn
      have hk1ids : ((autoCandidates db cid).map Invoice.id).get? (k + 1) =
          some invk1.id := by
        rw [List.get?_map, hk1]
        rfl
      have hnlt : n < ((autoCandidates db cid).map Invoice.id).length := by
        by_contra hge
        push_neg at hge
        rw [List.get?_eq_none.mpr hge] at hn1
        cases hn1
      have hnk : n = k + 1 :=
        List.get?_inj hnlt hcnd (hn1.trans hk1ids.symm)
      subst hnk
      obtain ⟨m0, inv0, h0, hf0, hv0⟩ := fifoPlan_succ _ amt k hn
      have hkids : ((autoCandidates db cid).map Invoice.id).get? k =
          some invk.id := by
        rw [List.get?_map, hk]
        rfl
      have hm01 : m0.1 = invk.id :=
        Option.some.inj ((fifoPlan_get?_fst _ amt k h0).symm.trans hkids)
      obtain ⟨invF, hfF, hbF, hfF'⟩ := hhit m0.1 m0.2 (List.get?_mem h0)
      have hFeq : inv0 = invF :=
        Option.some.inj ((show findInvoice db m0.1 = some invF from hfF).symm.trans
          hf0).symm
      refine ⟨fwdStep m0.2 invF, ?_, ?_⟩
      · rw [← hm01]
        exact hfF'
      · rw [show m0.2 = invF.remaining_amount from by rw [hv0, hFeq]]
        rw [fwdStep_exhaust]
        exact eps_nonneg

/-- C6 witness: scenario 2's auto payment of 90000: invoice 2 (younger)
    received 40000 ≠ 0, and invoice 1 (older) was left with remaining 0 ≤ ε.
-/
theorem C6_fifo_exhaustion_witness :
    ∃ invk', findInvoice S2db' 1 = some invk' ∧
      invk'.remaining_amount ≤ eps := by
  have h := C6_fifo_exhaustion (k := 0) (by decide) (by decide)
    (show record_payment S2db 1 90000 none none = .ok (S2db', 100) by decide)
    (show (autoCandidates S2db 1).get? 0 =
      some ⟨1, 1, 50000, 0, 0, 50000, .pending, true, 0⟩ by decide)
    (show (autoCandidates S2db 1).get? 1 =
      some ⟨2, 1, 70000, 0, 0, 70000, .pending, true, 1⟩ by decide)
    (by decide)
  exact h

end StoreLedger
